import Mathlib

/-!
Verification of the sm64gs2pc core: the GameShark cheat-line parser and
renderer (`src/sm64gs2pc/src/gameshark.rs`), the size calculator, location
resolver and write/check code generator (`src/sm64gs2pc/src/decomp_data.rs`),
and the lvalue printer (`src/sm64gs2pc/src/left_value.rs`).

Modelling conventions:
* Machine integers (`SizeInt`, `u64`, `u16`, `u8`) are modelled as `Nat`;
  wraparound is made explicit (`% 2 ^ 64`) exactly where the Rust semantics
  of the release build performs it, and value-range invariants of the Rust
  types appear as hypotheses on theorems.
* Rust functions whose recursion is not structurally bounded (the size
  calculator and the resolver can recurse through the named-struct registry,
  and the write/check generators recurse on boundary crossings) take an
  explicit fuel argument and return `Option`: `some r` means the Rust
  function returns `r`, `none` means the computation is still running after
  `fuel` nested calls (or hit a Rust panic, marked at the single division
  whose Rust counterpart can panic).  A genuine result is independent of the
  fuel once the fuel is large enough to cover the actual call depth.
* Fallible Rust functions returning `Result` are modelled with `Except`.
-/

namespace Sm64gs2pc

/-! ## Characters, hex digits, and whitespace (helpers for `gameshark.rs`) -/

/-- ASCII whitespace test; models `char::is_whitespace` on the characters
that can occur in cheat-code text. -/
def isWs (c : Char) : Bool :=
  c = ' ' || c = '\t' || c = '\n' || c = '\r'

/-- The value of one hexadecimal digit, as in `char::to_digit(16)`:
`0`-`9`, `a`-`f` and `A`-`F` are accepted. -/
def hexDigitVal (c : Char) : Option Nat :=
  if 48 ≤ c.toNat ∧ c.toNat ≤ 57 then some (c.toNat - 48)
  else if 97 ≤ c.toNat ∧ c.toNat ≤ 102 then some (c.toNat - 87)
  else if 65 ≤ c.toNat ∧ c.toNat ≤ 70 then some (c.toNat - 55)
  else none

/-- Uppercase hexadecimal digit character for a value below 16 (`{:X}`). -/
def hexDigitUpper (n : Nat) : Char :=
  Char.ofNat (if n < 10 then 48 + n else 55 + n)

/-- Lowercase hexadecimal digit character for a value below 16 (`{:x}`). -/
def hexDigitLower (n : Nat) : Char :=
  Char.ofNat (if n < 10 then 48 + n else 87 + n)

/-- Digit loop for `hexMinUpper`; the fuel (always instantiated above the
digit count) keeps the recursion structural. -/
def hexMinUpperGo : Nat → Nat → List Char
  | 0, _ => []
  | fuel + 1, n =>
    if n < 16 then [hexDigitUpper n]
    else hexMinUpperGo fuel (n / 16) ++ [hexDigitUpper (n % 16)]

/-- Uppercase hexadecimal digits of `n`, most significant first, without
leading zeros (`0` prints as `"0"`), as Rust `{:X}` formatting. -/
def hexMinUpper (n : Nat) : List Char :=
  hexMinUpperGo (n + 1) n

/-- Digit loop for `hexMinLower`. -/
def hexMinLowerGo : Nat → Nat → List Char
  | 0, _ => []
  | fuel + 1, n =>
    if n < 16 then [hexDigitLower n]
    else hexMinLowerGo fuel (n / 16) ++ [hexDigitLower (n % 16)]

/-- Lowercase hexadecimal digits of `n`, most significant first, without
leading zeros, as Rust `{:x}` formatting. -/
def hexMinLower (n : Nat) : List Char :=
  hexMinLowerGo (n + 1) n

/-- Digit loop for `decMin`. -/
def decMinGo : Nat → Nat → List Char
  | 0, _ => []
  | fuel + 1, n =>
    if n < 10 then [Char.ofNat (48 + n)]
    else decMinGo fuel (n / 10) ++ [Char.ofNat (48 + n % 10)]

/-- Decimal digits of `n`, most significant first, as Rust `{}` on integers. -/
def decMin (n : Nat) : List Char :=
  decMinGo (n + 1) n

/-- Zero-pad a digit string on the left to width `w` (Rust `{:0w$}`): the
width is a minimum, longer strings are kept. -/
def padLeftZeros (w : Nat) (ds : List Char) : List Char :=
  List.replicate (w - ds.length) '0' ++ ds

/-- Rust `{:0w$X}` formatting: uppercase hex, zero-padded to width `w`. -/
def hexUpperPad (w n : Nat) : List Char :=
  padLeftZeros w (hexMinUpper n)

/-- Rust `{:#x}` formatting: lowercase hex with a `0x` prefix. -/
def hexLit (n : Nat) : String :=
  String.mk ('0' :: 'x' :: hexMinLower n)

/-- Rust `{}` formatting of an unsigned integer. -/
def natLit (n : Nat) : String :=
  String.mk (decMin n)

/-- Wrapping 64-bit left shift: Rust `u64` `<<` keeps the low 64 bits. -/
def shl64 (x s : Nat) : Nat :=
  (x <<< s) % 2 ^ 64

/-- Bitwise complement on 64 bits, Rust `!` on `u64` (argument below `2^64`). -/
def notU64 (x : Nat) : Nat :=
  2 ^ 64 - 1 - x

/-- `Nat.checked_sub`-style subtraction, Rust `checked_sub`. -/
def checkedSub (a b : Nat) : Option Nat :=
  if b ≤ a then some (a - b) else none

/-- Split a character list at whitespace runs, dropping empty pieces;
models Rust `str::split_whitespace`.  `cur` holds the current token in
reverse. -/
def splitWsGo : List Char → List Char → List (List Char)
  | [], cur => if cur.isEmpty then [] else [cur.reverse]
  | c :: rest, cur =>
    if isWs c then
      if cur.isEmpty then splitWsGo rest []
      else cur.reverse :: splitWsGo rest []
    else splitWsGo rest (c :: cur)

/-- Whitespace-separated tokens of a character list (`str::split_whitespace`). -/
def splitWs (s : List Char) : List (List Char) :=
  splitWsGo s []

/-- Fold hexadecimal digits onto an accumulator, left to right; `none` on the
first non-digit.  The digit loop inside `from_str_radix(_, 16)`. -/
def parseHexGo : List Char → Nat → Option Nat
  | [], acc => some acc
  | c :: r, acc =>
    match hexDigitVal c with
    | none => none
    | some v => parseHexGo r (16 * acc + v)

/-- Rust `uN::from_str_radix(s, 16)`: an optional leading `+`, then at least
one hex digit; the result must fit below `bound` (the type's range). -/
def parseHexRadix (s : List Char) (bound : Nat) : Option Nat :=
  let digits := if s.head? = some '+' then s.tail else s
  if digits.isEmpty then none
  else
    match parseHexGo digits 0 with
    | none => none
    | some n => if n < bound then some n else none

/-! ## `gameshark.rs`: cheat-line data model, parser, renderer -/

/-- `gameshark::ParseError` (the wrapped `std::num::ParseIntError` payload is
collapsed into the bare variant). -/
inductive ParseError where
  | parseIntError
  | formatError
  | codeTypeError
  deriving DecidableEq, Repr

/-- `gameshark::CodeLine`: one parsed cheat line.  `addr` and `value` model
the Rust `SizeInt`, `u8` and `u16` fields as `Nat`. -/
inductive CodeLine where
  | write8 (addr : Nat) (value : Nat)
  | write16 (addr : Nat) (value : Nat)
  | ifEq8 (addr : Nat) (value : Nat)
  | ifEq16 (addr : Nat) (value : Nat)
  | ifNotEq8 (addr : Nat) (value : Nat)
  | ifNotEq16 (addr : Nat) (value : Nat)
  deriving DecidableEq, Repr

/-- `CodeLine::addr`. -/
def CodeLine.addr : CodeLine → Nat
  | .write8 a _ => a
  | .write16 a _ => a
  | .ifEq8 a _ => a
  | .ifEq16 a _ => a
  | .ifNotEq8 a _ => a
  | .ifNotEq16 a _ => a

/-- Range invariants of the Rust field types: `u8` values for the 8-bit
operations, `u16` values for the 16-bit ones. -/
def CodeLine.wf : CodeLine → Prop
  | .write8 _ v => v < 2 ^ 8
  | .write16 _ v => v < 2 ^ 16
  | .ifEq8 _ v => v < 2 ^ 8
  | .ifEq16 _ v => v < 2 ^ 16
  | .ifNotEq8 _ v => v < 2 ^ 8
  | .ifNotEq16 _ v => v < 2 ^ 16

/-- `CodeLine::from_str` over the characters of the line: split on
whitespace into `TTXXXXXX` and `VVVV`, check the widths, parse both tokens
as hex, split the first into code type and 24-bit address, and dispatch on
the code type. -/
def CodeLine.fromChars (s : List Char) : Except ParseError CodeLine :=
  match splitWs s with
  | [typeAddr, value] =>
    if typeAddr.length = 8 then
      if value.length = 4 then
        match parseHexRadix typeAddr (2 ^ 32) with
        | none => .error .parseIntError
        | some typeAddrN =>
          match parseHexRadix value (2 ^ 16) with
          | none => .error .parseIntError
          | some value16 =>
            let value8 := value16 % 2 ^ 8
            let codeType := typeAddrN >>> (8 * 3)
            let addr := typeAddrN &&& 0x00FFFFFF
            if codeType = 0x80 then .ok (.write8 addr value8)
            else if codeType = 0x81 then .ok (.write16 addr value16)
            else if codeType = 0xD0 then .ok (.ifEq8 addr value8)
            else if codeType = 0xD1 then .ok (.ifEq16 addr value16)
            else if codeType = 0xD2 then .ok (.ifNotEq8 addr value8)
            else if codeType = 0xD3 then .ok (.ifNotEq16 addr value16)
            else .error .codeTypeError
      else .error .formatError
    else .error .formatError
  | _ => .error .formatError

/-- `CodeLine::from_str` on a string. -/
def CodeLine.fromStr (s : String) : Except ParseError CodeLine :=
  CodeLine.fromChars s.data

/-- `impl fmt::Display for CodeLine`, character list: the two-digit opcode,
the address as `{:06X}`, a space, the value as `{:04X}`. -/
def CodeLine.renderChars : CodeLine → List Char
  | .write8 addr value => '8' :: '0' :: (hexUpperPad 6 addr ++ ' ' :: hexUpperPad 4 value)
  | .write16 addr value => '8' :: '1' :: (hexUpperPad 6 addr ++ ' ' :: hexUpperPad 4 value)
  | .ifEq8 addr value => 'D' :: '0' :: (hexUpperPad 6 addr ++ ' ' :: hexUpperPad 4 value)
  | .ifEq16 addr value => 'D' :: '1' :: (hexUpperPad 6 addr ++ ' ' :: hexUpperPad 4 value)
  | .ifNotEq8 addr value => 'D' :: '2' :: (hexUpperPad 6 addr ++ ' ' :: hexUpperPad 4 value)
  | .ifNotEq16 addr value => 'D' :: '3' :: (hexUpperPad 6 addr ++ ' ' :: hexUpperPad 4 value)

/-- `impl fmt::Display for CodeLine`, as a string. -/
def CodeLine.render (l : CodeLine) : String :=
  String.mk l.renderChars

/-- `gameshark::ValueSize`: width of a written or read value. -/
inductive ValueSize where
  | bits8
  | bits16
  deriving DecidableEq, Repr

/-- `ValueSize::num_bytes`. -/
def ValueSize.numBytes : ValueSize → Nat
  | .bits8 => 1
  | .bits16 => 2

/-- `ValueSize::mask`. -/
def ValueSize.mask : ValueSize → Nat
  | .bits8 => 0xff
  | .bits16 => 0xffff

/-! ## `typ.rs`: the C type model -/

mutual

/-- `typ::Type`: a C type. -/
inductive Typ where
  /-- An anonymous struct (`Type::AnonStruct`). -/
  | anonStruct (s : Strukt)
  /-- A named struct, resolved through the registry (`Type::Struct`). -/
  | struct (name : String)
  /-- An array of `numElements` elements (`Type::Array`). -/
  | array (elementType : Typ) (numElements : Nat)
  /-- An integer of `numBytes` bytes (`Type::Int`). -/
  | int (signed : Bool) (numBytes : Nat)
  /-- A pointer (`Type::Pointer`). -/
  | pointer (innerType : Typ)
  /-- The primitive `float` type (`Type::Float`). -/
  | float
  /-- A type the tool ignores (`Type::Ignored`). -/
  | ignored

/-- `typ::Struct`: an ordered list of fields. -/
inductive Strukt where
  | mk (fields : List StructField)

/-- `typ::StructField`: byte offset, name and type of one field. -/
inductive StructField where
  | mk (offset : Nat) (name : String) (typ : Typ)

end

/-- Fields of a struct. -/
def Strukt.fields : Strukt → List StructField
  | .mk fs => fs

/-- Byte offset of a field. -/
def StructField.offset : StructField → Nat
  | .mk o _ _ => o

/-- Name of a field. -/
def StructField.name : StructField → String
  | .mk _ n _ => n

/-- Type of a field. -/
def StructField.typ : StructField → Typ
  | .mk _ _ t => t

/-- The Rust condition `typ == Type::Float` (structural equality against the
nullary `Float` variant). -/
def Typ.isFloat : Typ → Bool
  | .float => true
  | _ => false

/-! ## `decl.rs`: declarations -/

/-- `decl::DeclKind`: function or typed variable. -/
inductive DeclKind where
  | fn
  | var (typ : Typ)

/-- `decl::Decl`: a named, addressed declaration. -/
structure Decl where
  kind : DeclKind
  name : String
  addr : Nat

/-! ## `left_value.rs`: lvalues -/

mutual

/-- `left_value::LeftValue`: kind, resolved type and absolute address. -/
inductive LeftValue where
  | mk (kind : LeftValueKind) (typ : Typ) (addr : Nat)

/-- `left_value::LeftValueKind`. -/
inductive LeftValueKind where
  /-- An identifier expression (`LeftValueKind::Ident`). -/
  | ident (name : String)
  /-- An array index expression (`LeftValueKind::ArrayIndex`). -/
  | arrayIndex (array : LeftValue) (index : Nat)
  /-- A struct field access (`LeftValueKind::StructField`). -/
  | structField (struct : LeftValue) (fieldName : String)

end

/-- Kind of an lvalue. -/
def LeftValue.kind : LeftValue → LeftValueKind
  | .mk k _ _ => k

/-- Type of an lvalue. -/
def LeftValue.typ : LeftValue → Typ
  | .mk _ t _ => t

/-- Address of an lvalue. -/
def LeftValue.addr : LeftValue → Nat
  | .mk _ _ a => a

mutual

/-- `impl fmt::Display for LeftValue`: a float-typed lvalue is referenced
through a `uint32_t` reinterpretation, any other lvalue prints its kind. -/
def leftValueToString (lv : LeftValue) : String :=
  match lv with
  | .mk kind typ _ =>
    if typ.isFloat then "*(uint32_t *) &" ++ leftValueKindToString kind
    else leftValueKindToString kind

/-- `impl fmt::Display for LeftValueKind`. -/
def leftValueKindToString : LeftValueKind → String
  | .ident name => name
  | .arrayIndex array index => leftValueToString array ++ "[" ++ natLit index ++ "]"
  | .structField struct_ fieldName => leftValueToString struct_ ++ "." ++ fieldName

end

/-! ## `decomp_data.rs`: layout model, size calculator, resolver, generators -/

/-- `decomp_data::ToPatchError`. -/
inductive ToPatchError where
  /-- `FnPatch`: the address resolves into a function. -/
  | fnPatch (addr : Nat)
  /-- `IgnoredType`: an ignored or unsupported type was processed. -/
  | ignoredType
  /-- `NoDecl`: no declaration found for the address. -/
  | noDecl (addr : Nat)
  /-- `NoStruct`: a named struct is missing from the registry. -/
  | noStruct (name : String)
  /-- `NoField`: no struct field found for the address. -/
  | noField (addr : Nat)
  /-- `ArrayOutOfBounds`: a code accesses an array out of bounds. -/
  | arrayOutOfBounds (addr : Nat) (lvalue : LeftValue)
  /-- `PointerAssign`: a code assigns to a pointer. -/
  | pointerAssign (addr : Nat)

/-- `decomp_data::DecompData`: the layout model.  `decls` models the
`BTreeMap<SizeInt, Decl>` as its list of values in ascending key order
(each declaration keyed by its own address); `structs` models the
`HashMap<String, Struct>` as an association list with unique names. -/
structure DecompData where
  decls : List Decl
  structs : List (String × Strukt)

/-- `self.structs.get(name)`. -/
def DecompData.lookupStruct (d : DecompData) (name : String) : Option Strukt :=
  (d.structs.find? (fun p => p.1 = name)).map (·.2)

mutual

/-- `DecompData::size_of_type`, fuelled: byte size of a type.  The only
fuel-consuming step is the jump through the struct registry or into a
struct's field list, mirroring the Rust call graph. -/
def sizeOfType (d : DecompData) : Nat → Typ → Option (Except ToPatchError Nat)
  | 0, _ => none
  | fuel + 1, t =>
    match t with
    | .anonStruct s => sizeOfStruct d fuel s
    | .struct name =>
      match d.lookupStruct name with
      | none => some (.error (.noStruct name))
      | some s => sizeOfStruct d fuel s
    | .array elementType numElements =>
      match sizeOfType d fuel elementType with
      | none => none
      | some (.error e) => some (.error e)
      | some (.ok size) => some (.ok (size * numElements))
    | .int _ numBytes => some (.ok numBytes)
    | .pointer _ => some (.ok 8)
    | .float => some (.ok 4)
    | .ignored => some (.error .ignoredType)

/-- `DecompData::size_of_struct`: the struct is assumed padding-free, so its
size is the sum of its field sizes (first error wins, fields in order). -/
def sizeOfStruct (d : DecompData) : Nat → Strukt → Option (Except ToPatchError Nat)
  | 0, _ => none
  | fuel + 1, s => sizeOfFields d fuel s.fields

/-- The `map`/`sum` fold over a struct's fields inside `size_of_struct`. -/
def sizeOfFields (d : DecompData) : Nat → List StructField → Option (Except ToPatchError Nat)
  | 0, _ => none
  | _ + 1, [] => some (.ok 0)
  | fuel + 1, fd :: rest =>
    match sizeOfType d fuel fd.typ with
    | none => none
    | some (.error e) => some (.error e)
    | some (.ok a) =>
      match sizeOfFields d fuel rest with
      | none => none
      | some (.error e) => some (.error e)
      | some (.ok b) => some (.ok (a + b))

end

/-- The floor lookup inside `DecompData::addr_to_lvalue`:
`self.decls.values().rev().find(|decl| decl.addr <= addr)` — the last
declaration, in ascending address order, whose address is at or below the
target. -/
def DecompData.floorDecl (d : DecompData) (addr : Nat) : Option Decl :=
  d.decls.reverse.find? (fun decl => decide (decl.addr ≤ addr))

mutual

/-- `DecompData::addr_accum_to_lvalue`, fuelled: narrow the accumulated
lvalue to the most specific storage location containing `addr`.
Subtractions `addr - accumAddr` copy the Rust unsigned subtraction, which
never underflows when seeded from a floor declaration.  The Rust division
`(addr - accum_addr) / element_type_size` panics when the element size is
zero; that panic is modelled as `none` (no result). -/
def addrAccumToLvalue (d : DecompData) :
    Nat → LeftValue → Nat → Nat → Option (Except ToPatchError LeftValue)
  | 0, _, _, _ => none
  | fuel + 1, accum, addr, accumAddr =>
    match accum.typ with
    | .anonStruct s => addrAndStructToLvalue d fuel accum addr s accumAddr
    | .struct name =>
      match d.lookupStruct name with
      | none => some (.error (.noStruct name))
      | some s => addrAndStructToLvalue d fuel accum addr s accumAddr
    | .int _ _ => some (.ok accum)
    | .float => some (.ok accum)
    | .array elementType numElements =>
      match sizeOfType d fuel elementType with
      | none => none
      | some (.error e) => some (.error e)
      | some (.ok elementTypeSize) =>
        if elementTypeSize = 0 then none
        else
          let index := (addr - accumAddr) / elementTypeSize
          if numElements ≤ index then
            some (.error (.arrayOutOfBounds addr accum))
          else
            let accumAddr2 := accumAddr + index * elementTypeSize
            addrAccumToLvalue d fuel
              (.mk (.arrayIndex accum index) elementType accumAddr2) addr accumAddr2
    | .pointer _ => some (.error (.pointerAssign addr))
    | .ignored => some (.error .ignoredType)

/-- `DecompData::addr_and_struct_to_lvalue`: pick the field with the
greatest offset whose start is at or below the target (scanning the fields
from the end) and descend into it. -/
def addrAndStructToLvalue (d : DecompData) :
    Nat → LeftValue → Nat → Strukt → Nat → Option (Except ToPatchError LeftValue)
  | 0, _, _, _, _ => none
  | fuel + 1, accum, addr, s, accumAddr =>
    match s.fields.reverse.find? (fun fd => decide (accumAddr + fd.offset ≤ addr)) with
    | none => some (.error (.noField addr))
    | some fd =>
      let accumAddr2 := accumAddr + fd.offset
      addrAccumToLvalue d fuel
        (.mk (.structField accum fd.name) fd.typ accumAddr2) addr accumAddr2

end

/-- `DecompData::addr_to_lvalue`: floor-lookup the owning declaration
(`NoDecl` when every declaration lies above the address), reject functions,
then narrow the seeded identifier lvalue. -/
def addrToLvalue (d : DecompData) (fuel : Nat) (addr : Nat) :
    Option (Except ToPatchError LeftValue) :=
  match d.floorDecl addr with
  | none => some (.error (.noDecl addr))
  | some decl =>
    match decl.kind with
    | .fn => some (.error (.fnPatch addr))
    | .var typ =>
      addrAccumToLvalue d fuel (.mk (.ident decl.name) typ decl.addr) addr decl.addr

/-- `DecompData::lvalue_get_shift`: left bit shift needed to access a
`valueSize`-sized value at `addr` inside `lvalue`; `some none` signals that
the access overlaps the edge of the lvalue.  `addr - lvalue.addr` copies the
Rust unsigned subtraction (callers always pass `lvalue.addr ≤ addr`). -/
def lvalueGetShift (d : DecompData) (fuel : Nat) (lvalue : LeftValue)
    (valueSize : ValueSize) (addr : Nat) : Option (Except ToPatchError (Option Nat)) :=
  match sizeOfType d fuel lvalue.typ with
  | none => none
  | some (.error e) => some (.error e)
  | some (.ok lvalueSize) =>
    some (.ok ((checkedSub lvalueSize valueSize.numBytes).bind fun sizeDiff =>
      (checkedSub sizeDiff (addr - lvalue.addr)).map fun diffDiff => diffDiff * 8))

/-- The output line of `DecompData::format_write`:
the Rust template is an assignment that masks the lvalue and ors in the
shifted value, followed by the optional second write. -/
def writeText (lvalue : LeftValue) (writeSize : ValueSize) (shift : Nat)
    (value : Nat) (next : String) : String :=
  leftValueToString lvalue ++ " = (" ++ leftValueToString lvalue ++ " & " ++
    hexLit (notU64 (shl64 writeSize.mask shift)) ++ ") | " ++
    hexLit (shl64 value shift) ++ ";" ++ next

/-- The output line of `DecompData::format_check`:
an `if` comparing the masked lvalue against the shifted value, followed by
the optional second check. -/
def checkText (lvalue : LeftValue) (readSize : ValueSize) (shift : Nat)
    (value : Nat) (checkEq : Bool) (next : String) : String :=
  "if ((" ++ leftValueToString lvalue ++ " & " ++ hexLit (shl64 readSize.mask shift) ++
    ") " ++ (if checkEq then "==" else "!=") ++ " " ++ hexLit (shl64 value shift) ++
    ")" ++ next

/-- `DecompData::format_write`, fuelled: resolve the lvalue, compute the
shift; with a shift the write stays inside one lvalue, without one the write
straddles lvalues and an 8-bit write of the low byte at `addr + 1` is
generated first and appended after the current lvalue's high-byte write. -/
def formatWrite (d : DecompData) :
    Nat → ValueSize → Nat → Nat → Option (Except ToPatchError String)
  | 0, _, _, _ => none
  | fuel + 1, writeSize, value, addr =>
    match addrToLvalue d fuel addr with
    | none => none
    | some (.error e) => some (.error e)
    | some (.ok lvalue) =>
      match lvalueGetShift d fuel lvalue writeSize addr with
      | none => none
      | some (.error e) => some (.error e)
      | some (.ok (some shift)) =>
        some (.ok (writeText lvalue writeSize shift value ""))
      | some (.ok none) =>
        match formatWrite d fuel .bits8 (value &&& 0xff) (addr + 1) with
        | none => none
        | some (.error e) => some (.error e)
        | some (.ok nextWrite) =>
          some (.ok (writeText lvalue .bits8 0 (value >>> 8) (" " ++ nextWrite)))

/-- `DecompData::format_check`, fuelled: same structure as `formatWrite`,
emitting an `if` comparison; on a boundary crossing the low-byte check at
`addr + 1` is appended after the current lvalue's high-byte check. -/
def formatCheck (d : DecompData) :
    Nat → ValueSize → Nat → Nat → Bool → Option (Except ToPatchError String)
  | 0, _, _, _, _ => none
  | fuel + 1, readSize, value, addr, checkEq =>
    match addrToLvalue d fuel addr with
    | none => none
    | some (.error e) => some (.error e)
    | some (.ok lvalue) =>
      match lvalueGetShift d fuel lvalue readSize addr with
      | none => none
      | some (.error e) => some (.error e)
      | some (.ok (some shift)) =>
        some (.ok (checkText lvalue readSize shift value checkEq ""))
      | some (.ok none) =>
        match formatCheck d fuel .bits8 (value &&& 0xff) (addr + 1) checkEq with
        | none => none
        | some (.error e) => some (.error e)
        | some (.ok nextRead) =>
          some (.ok (checkText lvalue .bits8 0 (value >>> 8) checkEq (" " ++ nextRead)))

/-! ## Fixtures -/

/-- An unsigned-integer variable declaration, as `tests::add_int`. -/
def intDecl (addr numBytes : Nat) (name : String) : Decl :=
  { kind := .var (.int false numBytes), name := name, addr := addr }

/-- A float variable declaration, as `tests::add_float`. -/
def floatDecl (addr : Nat) (name : String) : Decl :=
  { kind := .var .float, name := name, addr := addr }

/-- The §8 fixture layout of `tests::decomp_data`: 1-byte `A`-`D` at
`0x8000`-`0x8003`, 4-byte `E` at `0x8004`, 4-byte `F` at `0x8008`, 2-byte
`G` at `0x800c`, 2-byte `H` at `0x800e`, float `f0` at `0x8010`, listed in
ascending address order as the `BTreeMap` iterates them. -/
def fixtureData : DecompData where
  decls :=
    [ intDecl 0x8000 1 "A", intDecl 0x8001 1 "B", intDecl 0x8002 1 "C",
      intDecl 0x8003 1 "D", intDecl 0x8004 4 "E", intDecl 0x8008 4 "F",
      intDecl 0x800c 2 "G", intDecl 0x800e 2 "H", floatDecl 0x8010 "f0" ]
  structs := []

/-- A layout with a single four-element array of 1-byte integers at
`0x8000`, for the out-of-bounds resolution example. -/
def arrayData : DecompData where
  decls := [{ kind := .var (.array (.int false 1) 4), name := "arr", addr := 0x8000 }]
  structs := []

/-- A layout whose registry contains a self-referential named struct: `S`
has a single field at offset 0 whose type is `struct S` again.  Resolving
any address inside the declaration `s0` recurses through the registry
forever. -/
def cyclicData : DecompData where
  decls := [{ kind := .var (.struct "S"), name := "s0", addr := 0 }]
  structs := [("S", .mk [.mk 0 "f" (.struct "S")])]

/-- A layout model with no declarations and an empty registry. -/
def emptyData : DecompData where
  decls := []
  structs := []

/-- The array fixture's seeded lvalue: the identifier `arr` with its array
type at `0x8000`. -/
def arrLv : LeftValue :=
  .mk (.ident "arr") (.array (.int false 1) 4) 0x8000

/-! ## Termination predicates -/

mutual

/-- Registry-independent well-behaved types: no named-composite references
(so no recursion through the registry), and every array element type has a
nonzero computed size (so the Rust index division cannot panic).  Pointer
pointees are unconstrained because neither the size calculator nor the
resolver ever descends into them. -/
inductive OkTyp : Typ → Prop where
  | anonStruct (s : Strukt) : OkFields s.fields → OkTyp (.anonStruct s)
  | array (e : Typ) (n : Nat) : OkTyp e →
      (∀ (d : DecompData) (f : Nat), sizeOfType d f e ≠ some (.ok 0)) →
      OkTyp (.array e n)
  | int (signed : Bool) (w : Nat) : OkTyp (.int signed w)
  | pointer (t : Typ) : OkTyp (.pointer t)
  | float : OkTyp .float
  | ignored : OkTyp .ignored

/-- `OkTyp` for every field type of a field list. -/
inductive OkFields : List StructField → Prop where
  | nil : OkFields []
  | cons (fd : StructField) (rest : List StructField) :
      OkTyp fd.typ → OkFields rest → OkFields (fd :: rest)

end


/-! ## Digit-string helpers for the round-trip proofs -/

/-- Fixed-width big-endian hexadecimal digits of `n % 16 ^ w` (uppercase).
For `n < 16 ^ w` this is exactly the `{:0w$X}` rendering; its regular
recursion drives the formatting proofs. -/
def hexPadT : Nat → Nat → List Char
  | 0, _ => []
  | w + 1, n => hexPadT w (n / 16) ++ [hexDigitUpper (n % 16)]

/-- The sixteen uppercase hexadecimal digit characters. -/
def hexUpperChars : List Char :=
  ['0', '1', '2', '3', '4', '5', '6', '7', '8', '9', 'A', 'B', 'C', 'D', 'E', 'F']

/-- Whether a code line is one of the 16-bit operations. -/
def CodeLine.is16Bit : CodeLine → Bool
  | .write16 _ _ => true
  | .ifEq16 _ _ => true
  | .ifNotEq16 _ _ => true
  | _ => false

/-! ## C5: the boundary-crossing 16-bit write on the fixture -/

/-- C5: on the §8 fixture layout, a 16-bit write of `0xABCD` at `0x8000`
spans the adjacent 1-byte declarations `A` and `B` and produces exactly the
two cooperating assignments of the Rust test. -/
theorem c5_format_write_split :
    formatWrite fixtureData 20 .bits16 0xabcd 0x8000 =
      some (.ok "A = (A & 0xffffffffffffff00) | 0xab; B = (B & 0xffffffffffffff00) | 0xcd;") :=
  rfl

/-! ## C6: float locations are written through a `uint32_t` reinterpretation -/

/-- C6: every float-typed lvalue prints as a 4-byte unsigned-integer
reinterpretation of its storage cell, and on the §8 fixture the 16-bit write
of `0xABCD` at `0x8010` produces exactly the reinterpreted masked write of
the Rust test. -/
theorem c6_float_reinterpret :
    (∀ lv : LeftValue, lv.typ = .float →
      leftValueToString lv = "*(uint32_t *) &" ++ leftValueKindToString lv.kind) ∧
    formatWrite fixtureData 20 .bits16 0xabcd 0x8010 =
      some (.ok "*(uint32_t *) &f0 = (*(uint32_t *) &f0 & 0xffffffff0000ffff) | 0xabcd0000;") := by
  constructor
  · intro lv h
    cases lv with
    | mk kind typ addr =>
      cases typ <;> simp_all [LeftValue.typ, LeftValue.kind, leftValueToString, Typ.isFloat]
  · rfl

/-- Witness for C6: the fixture's float lvalue `f0` at `0x8010`. -/
theorem c6_float_reinterpret_witness :
    leftValueToString (.mk (.ident "f0") .float 0x8010) =
      "*(uint32_t *) &" ++ leftValueKindToString (LeftValue.mk (.ident "f0") .float 0x8010).kind :=
  c6_float_reinterpret.1 (.mk (.ident "f0") .float 0x8010) rfl

/-! ## C4: the shift computation -/

/-- C4: for an lvalue whose type's size computation yields `sz`, a target
address at or above the lvalue's address, and either access width, the shift
is `(sz - width - (addr - lvalue.addr)) * 8` when
`width + (addr - lvalue.addr) ≤ sz` (the non-negativity of
`sz - width - (addr - lvalue.addr)`), and the no-shift overflow signal
otherwise. -/
theorem c4_lvalue_get_shift (d : DecompData) (fuel : Nat) (lv : LeftValue)
    (vs : ValueSize) (a sz : Nat)
    (hsz : sizeOfType d fuel lv.typ = some (.ok sz)) (hle : lv.addr ≤ a) :
    lvalueGetShift d fuel lv vs a =
      some (.ok (if vs.numBytes + (a - lv.addr) ≤ sz
        then some ((sz - vs.numBytes - (a - lv.addr)) * 8)
        else none)) := by
  simp only [lvalueGetShift, hsz]
  by_cases h1 : vs.numBytes ≤ sz
  · by_cases h2 : a - lv.addr ≤ sz - vs.numBytes
    · rw [if_pos (by omega)]
      simp [checkedSub, h1, h2]
      omega
    · rw [if_neg (by omega)]
      simp [checkedSub, h1, h2]
      omega
  · rw [if_neg (by omega)]
    simp [checkedSub, h1]

/-- Witness for C4: the fixture's 2-byte `G` at `0x800c`, byte access at
`0x800d`, giving shift 0. -/
theorem c4_lvalue_get_shift_witness :
    lvalueGetShift fixtureData 2 (.mk (.ident "G") (.int false 2) 0x800c) .bits8 0x800d =
      some (.ok (some 0)) := by
  have h := c4_lvalue_get_shift fixtureData 2 (.mk (.ident "G") (.int false 2) 0x800c)
    .bits8 0x800d 2 rfl (by decide)
  simpa using h

/-! ## C1: order of the two checks on a boundary crossing -/

/-- C1, counterexample: on the §8 fixture, the 16-bit check of `0xABCD` at
`0x8000` generates the current (high-byte) check on `A` first and the
low-byte check at `0x8001` (`B`) second — not the low-byte check first as
the claim states. -/
theorem c1_counterexample :
    formatCheck fixtureData 20 .bits16 0xabcd 0x8000 true =
      some (.ok "if ((A & 0xff) == 0xab) if ((B & 0xff) == 0xcd)") ∧
    "if ((A & 0xff) == 0xab) if ((B & 0xff) == 0xcd)" ≠
      "if ((B & 0xff) == 0xcd) if ((A & 0xff) == 0xab)" :=
  ⟨rfl, by decide⟩

/-- C1 as amended: when the 16-bit check's shift computation signals no
shift, the generated text is the current lvalue's high-byte check (width 8,
shift 0, value `v >> 8`) followed by the low-byte check generated at
`addr + 1` — two successive `if` statements with the current check first. -/
theorem c1_check_boundary_order (d : DecompData) (fuel v a : Nat) (eq : Bool)
    (lv : LeftValue) (low : String)
    (hres : addrToLvalue d fuel a = some (.ok lv))
    (hshift : lvalueGetShift d fuel lv .bits16 a = some (.ok none))
    (hlow : formatCheck d fuel .bits8 (v &&& 0xff) (a + 1) eq = some (.ok low)) :
    formatCheck d (fuel + 1) .bits16 v a eq =
      some (.ok (checkText lv .bits8 0 (v >>> 8) eq (" " ++ low))) := by
  simp only [formatCheck, hres, hshift, hlow]

/-- Witness for C1: the fixture's 16-bit check at `0x8000`. -/
theorem c1_check_boundary_order_witness :
    formatCheck fixtureData 20 .bits16 0xabcd 0x8000 true =
      some (.ok (checkText (.mk (.ident "A") (.int false 1) 0x8000) .bits8 0
        (0xabcd >>> 8) true (" " ++ "if ((B & 0xff) == 0xcd)"))) :=
  c1_check_boundary_order fixtureData 19 0xabcd 0x8000 true
    (.mk (.ident "A") (.int false 1) 0x8000) "if ((B & 0xff) == 0xcd)" rfl rfl rfl

/-! ## C7: the size calculator -/

/-- C7, counterexample: a pointer whose pointee is the unrepresentable
sentinel has the sentinel in a subtree, yet `size_of_type` returns the fixed
pointer size 8 instead of failing with the `IgnoredType` error. -/
theorem c7_counterexample :
    sizeOfType emptyData 2 (.pointer .ignored) = some (.ok 8) ∧
    sizeOfType emptyData 2 (.pointer .ignored) ≠ some (.error .ignoredType) :=
  ⟨rfl, fun h => Except.noConfusion (Option.some.inj h)⟩

/-! ## C9: the array step of resolution -/

/-- C9: at an array-typed step with a positive element size `k`, the
resolver computes `index = (addr - accumAddr) / k`, fails with
`ArrayOutOfBounds` exactly when `index ≥ count`, and otherwise descends into
the element type at `accumAddr + index * k`; on the array fixture, resolving
the address one element past the end fails with `ArrayOutOfBounds`. -/
theorem c9_array_step :
    (∀ (d : DecompData) (fuel : Nat) (accum : LeftValue) (a aa : Nat)
        (et : Typ) (n k : Nat),
      accum.typ = .array et n →
      sizeOfType d fuel et = some (.ok k) → 0 < k →
      addrAccumToLvalue d (fuel + 1) accum a aa =
        (if n ≤ (a - aa) / k then some (.error (.arrayOutOfBounds a accum))
         else addrAccumToLvalue d fuel
            (.mk (.arrayIndex accum ((a - aa) / k)) et (aa + ((a - aa) / k) * k))
            a (aa + ((a - aa) / k) * k))) ∧
    addrToLvalue arrayData 20 0x8004 =
      some (.error (.arrayOutOfBounds 0x8004 arrLv)) := by
  constructor
  · intro d fuel accum a aa et n k htyp hsz hk
    simp only [addrAccumToLvalue, htyp, hsz]
    rw [if_neg (by omega)]
  · rfl

/-- Witness for C9: the array fixture, one element past the end. -/
theorem c9_array_step_witness :
    addrAccumToLvalue arrayData 6 arrLv 0x8004 0x8000 =
      some (.error (.arrayOutOfBounds 0x8004 arrLv)) := by
  have h := c9_array_step.1 arrayData 5 arrLv 0x8004 0x8000 (.int false 1) 4 1
    rfl rfl (by decide)
  simpa using h

/-! ## C3: parse-then-render round trip -/

/-- C3, counterexample: a lowercase cheat line parses successfully, but
re-rendering produces uppercase text that is not byte-identical to the
input. -/
theorem c3_counterexample :
    CodeLine.fromStr "d033afa1 0020" = .ok (.ifEq8 0x33AFA1 0x20) ∧
    CodeLine.render (.ifEq8 0x33AFA1 0x20) ≠ "d033afa1 0020" :=
  ⟨rfl, by decide⟩

/-! ## C8: floor lookup and the `NoDecl` error -/

/-- The size calculator and the descent of the resolver never construct a
`NoDecl` error: that error only arises from the floor lookup itself. -/
lemma no_noDecl (d : DecompData) : ∀ fuel : Nat,
    (∀ t x, sizeOfType d fuel t ≠ some (.error (.noDecl x))) ∧
    (∀ s x, sizeOfStruct d fuel s ≠ some (.error (.noDecl x))) ∧
    (∀ l x, sizeOfFields d fuel l ≠ some (.error (.noDecl x))) ∧
    (∀ acc a aa x, addrAccumToLvalue d fuel acc a aa ≠ some (.error (.noDecl x))) ∧
    (∀ acc a s aa x, addrAndStructToLvalue d fuel acc a s aa ≠ some (.error (.noDecl x))) := by
  intro fuel
  induction fuel with
  | zero =>
    exact ⟨fun t x h => Option.noConfusion h, fun s x h => Option.noConfusion h,
      fun l x h => Option.noConfusion h, fun acc a aa x h => Option.noConfusion h,
      fun acc a s aa x h => Option.noConfusion h⟩
  | succ fuel ih =>
    obtain ⟨ihT, ihS, ihL, ihA, ihF⟩ := ih
    refine ⟨?_, ?_, ?_, ?_, ?_⟩
    · intro t x h
      cases t with
      | anonStruct s =>
        exact ihS s x (by simpa only [sizeOfType] using h)
      | struct name =>
        simp only [sizeOfType] at h
        cases hl : d.lookupStruct name <;> rw [hl] at h
        · exact ToPatchError.noConfusion (Except.error.inj (Option.some.inj h))
        · exact ihS _ x h
      | array et n =>
        simp only [sizeOfType] at h
        cases hs : sizeOfType d fuel et <;> rw [hs] at h
        · exact Option.noConfusion h
        · rename_i r
          cases r with
          | error e =>
            have he := Except.error.inj (Option.some.inj h)
            exact ihT et x (by rw [hs, he])
          | ok k => exact Except.noConfusion (Option.some.inj h)
      | int signed w => exact Except.noConfusion (Option.some.inj h)
      | pointer t' => exact Except.noConfusion (Option.some.inj h)
      | float => exact Except.noConfusion (Option.some.inj h)
      | ignored => exact ToPatchError.noConfusion (Except.error.inj (Option.some.inj h))
    · intro s x h
      exact ihL s.fields x (by simpa only [sizeOfStruct] using h)
    · intro l x h
      cases l with
      | nil => exact Except.noConfusion (Option.some.inj h)
      | cons fd rest =>
        simp only [sizeOfFields] at h
        cases hs : sizeOfType d fuel fd.typ <;> rw [hs] at h
        · exact Option.noConfusion h
        · rename_i r
          cases r with
          | error e =>
            have he := Except.error.inj (Option.some.inj h)
            exact ihT fd.typ x (by rw [hs, he])
          | ok k =>
            cases hr : sizeOfFields d fuel rest <;> rw [hr] at h
            · exact Option.noConfusion h
            · rename_i r2
              cases r2 with
              | error e =>
                have he := Except.error.inj (Option.some.inj h)
                exact ihL rest x (by rw [hr, he])
              | ok b => exact Except.noConfusion (Option.some.inj h)
    · intro acc a aa x h
      cases hacc : acc.typ with
      | anonStruct s =>
        exact ihF acc a s aa x (by simpa only [addrAccumToLvalue, hacc] using h)
      | struct name =>
        simp only [addrAccumToLvalue, hacc] at h
        cases hl : d.lookupStruct name <;> rw [hl] at h
        · exact ToPatchError.noConfusion (Except.error.inj (Option.some.inj h))
        · exact ihF _ _ _ _ x h
      | int signed w =>
        simp only [addrAccumToLvalue, hacc] at h
        exact Except.noConfusion (Option.some.inj h)
      | float =>
        simp only [addrAccumToLvalue, hacc] at h
        exact Except.noConfusion (Option.some.inj h)
      | array et n =>
        simp only [addrAccumToLvalue, hacc] at h
        cases hs : sizeOfType d fuel et with
        | none =>
          rw [hs] at h
          exact Option.noConfusion h
        | some r =>
          cases r with
          | error e =>
            rw [hs] at h
            have he := Except.error.inj (Option.some.inj h)
            exact ihT et x (by rw [hs, he])
          | ok k =>
            simp only [hs] at h
            by_cases hk : k = 0
            · rw [if_pos hk] at h
              exact Option.noConfusion h
            · rw [if_neg hk] at h
              by_cases hi : n ≤ (a - aa) / k
              · rw [if_pos hi] at h
                exact ToPatchError.noConfusion (Except.error.inj (Option.some.inj h))
              · rw [if_neg hi] at h
                exact ihA _ _ _ x h
      | pointer t' =>
        simp only [addrAccumToLvalue, hacc] at h
        exact ToPatchError.noConfusion (Except.error.inj (Option.some.inj h))
      | ignored =>
        simp only [addrAccumToLvalue, hacc] at h
        exact ToPatchError.noConfusion (Except.error.inj (Option.some.inj h))
    · intro acc a s aa x h
      simp only [addrAndStructToLvalue] at h
      cases hf : s.fields.reverse.find? (fun fd => decide (aa + fd.offset ≤ a)) <;>
        rw [hf] at h
      · exact ToPatchError.noConfusion (Except.error.inj (Option.some.inj h))
      · exact ihA _ _ _ x h

/-- The reversed `find?` of the floor lookup returns the declaration with
the greatest address at or below the target, for an address-sorted list. -/
lemma find_floor_max {l : List Decl} (hs : l.Pairwise (fun x y => x.addr < y.addr))
    (a : Nat) {decl : Decl}
    (h : l.reverse.find? (fun dc => decide (dc.addr ≤ a)) = some decl) :
    decl ∈ l ∧ decl.addr ≤ a ∧ ∀ other ∈ l, other.addr ≤ a → other.addr ≤ decl.addr := by
  induction l using List.reverseRecOn with
  | nil => simp at h
  | append_singleton xs x ih =>
    rw [List.reverse_append] at h
    simp only [List.reverse_singleton, List.singleton_append] at h
    rw [List.pairwise_append] at hs
    obtain ⟨hxs, -, hcross⟩ := hs
    by_cases hx : x.addr ≤ a
    · rw [List.find?_cons_of_pos _ (by simpa using hx)] at h
      obtain rfl : x = decl := Option.some.inj h
      refine ⟨List.mem_append_right _ (List.mem_singleton_self x), hx, ?_⟩
      intro other hother _
      rcases List.mem_append.mp hother with hmem | hmem
      · exact le_of_lt (hcross other hmem x (List.mem_singleton_self x))
      · rw [List.mem_singleton.mp hmem]
    · rw [List.find?_cons_of_neg _ (by simpa using hx)] at h
      obtain ⟨hmem, hle, hmax⟩ := ih hxs h
      refine ⟨List.mem_append_left _ hmem, hle, ?_⟩
      intro other hother hole
      rcases List.mem_append.mp hother with hmem2 | hmem2
      · exact hmax other hmem2 hole
      · rw [List.mem_singleton.mp hmem2] at hole
        exact absurd hole hx

/-- C8: resolution fails with `NoDecl` exactly when the target address lies
below every known declaration, and (for an address-sorted declaration list,
the `BTreeMap` invariant) the floor lookup that seeds the descent returns
the declaration with the greatest address at or below the target. -/
theorem c8_floor_lookup (d : DecompData) (fuel a : Nat) :
    (addrToLvalue d fuel a = some (.error (.noDecl a)) ↔
      ∀ decl ∈ d.decls, a < decl.addr) ∧
    (d.decls.Pairwise (fun x y => x.addr < y.addr) →
      ∀ decl, d.floorDecl a = some decl →
        decl ∈ d.decls ∧ decl.addr ≤ a ∧
          ∀ other ∈ d.decls, other.addr ≤ a → other.addr ≤ decl.addr) := by
  constructor
  · constructor
    · intro h
      intro decl hmem
      by_contra hnot
      push_neg at hnot
      cases hf : d.floorDecl a with
      | none =>
        have := List.find?_eq_none.mp hf decl (List.mem_reverse.mpr hmem)
        simp at this
        omega
      | some dec =>
        simp only [addrToLvalue, hf] at h
        cases hk : dec.kind with
        | fn =>
          simp only [hk] at h
          exact ToPatchError.noConfusion (Except.error.inj (Option.some.inj h))
        | var typ =>
          simp only [hk] at h
          exact (no_noDecl d fuel).2.2.2.1 _ _ _ _ h
    · intro h
      cases hf : d.floorDecl a with
      | none => simp only [addrToLvalue, hf]
      | some dec =>
        have hmem := List.mem_reverse.mp (List.mem_of_find?_eq_some hf)
        have hle : dec.addr ≤ a := by simpa using List.find?_some hf
        exact absurd hle (by simpa using h dec hmem)
  · intro hs decl h
    exact find_floor_max hs a h

/-- Witness for C8: on the fixture, address `0x8005` floors to `E` at
`0x8004`, and on the empty layout every address reports `NoDecl`. -/
theorem c8_floor_lookup_witness :
    ((intDecl 0x8004 4 "E") ∈ fixtureData.decls ∧
      (intDecl 0x8004 4 "E").addr ≤ 0x8005 ∧
      ∀ other ∈ fixtureData.decls, other.addr ≤ 0x8005 →
        other.addr ≤ (intDecl 0x8004 4 "E").addr) ∧
    addrToLvalue emptyData 3 5 = some (.error (.noDecl 5)) := by
  constructor
  · exact (c8_floor_lookup fixtureData 3 0x8005).2 (by decide) (intDecl 0x8004 4 "E") rfl
  · exact (c8_floor_lookup emptyData 3 5).1.mpr (by simp [emptyData])

/-! ## One-step unfolding equations (all definitional) -/

/-- One-step unfolding of `sizeOfType` on a named struct. -/
lemma sizeOfType_struct_eq (d : DecompData) (fuel : Nat) (name : String) :
    sizeOfType d (fuel + 1) (.struct name) =
      (match d.lookupStruct name with
        | none => some (.error (.noStruct name))
        | some s => sizeOfStruct d fuel s) := rfl

/-- One-step unfolding of `sizeOfType` on an array. -/
lemma sizeOfType_array_eq (d : DecompData) (fuel : Nat) (et : Typ) (n : Nat) :
    sizeOfType d (fuel + 1) (.array et n) =
      (match sizeOfType d fuel et with
        | none => none
        | some (.error e) => some (.error e)
        | some (.ok k) => some (.ok (k * n))) := rfl

/-- One-step unfolding of `sizeOfFields` on a cons cell. -/
lemma sizeOfFields_cons_eq (d : DecompData) (fuel : Nat) (fd : StructField)
    (rest : List StructField) :
    sizeOfFields d (fuel + 1) (fd :: rest) =
      (match sizeOfType d fuel fd.typ with
        | none => none
        | some (.error e) => some (.error e)
        | some (.ok a) =>
          match sizeOfFields d fuel rest with
          | none => none
          | some (.error e) => some (.error e)
          | some (.ok b) => some (.ok (a + b))) := rfl

/-! ## Fuel monotonicity of the size calculator -/

/-- A settled size computation is stable under one more unit of fuel. -/
lemma size_mono (d : DecompData) : ∀ fuel : Nat,
    (∀ t r, sizeOfType d fuel t = some r → sizeOfType d (fuel + 1) t = some r) ∧
    (∀ s r, sizeOfStruct d fuel s = some r → sizeOfStruct d (fuel + 1) s = some r) ∧
    (∀ l r, sizeOfFields d fuel l = some r → sizeOfFields d (fuel + 1) l = some r) := by
  intro fuel
  induction fuel with
  | zero =>
    exact ⟨fun t r h => Option.noConfusion h, fun s r h => Option.noConfusion h,
      fun l r h => Option.noConfusion h⟩
  | succ fuel ih =>
    obtain ⟨ihT, ihS, ihL⟩ := ih
    refine ⟨?_, ?_, ?_⟩
    · intro t r h
      cases t with
      | anonStruct s => exact ihS _ _ h
      | struct name =>
        rw [sizeOfType_struct_eq] at h
        rw [sizeOfType_struct_eq]
        cases hl : d.lookupStruct name with
        | none => rw [hl] at h; exact h
        | some s => rw [hl] at h; exact ihS _ _ h
      | array et n =>
        rw [sizeOfType_array_eq] at h
        rw [sizeOfType_array_eq]
        cases hs : sizeOfType d fuel et with
        | none => rw [hs] at h; exact Option.noConfusion h
        | some rr =>
          rw [hs] at h
          rw [ihT et rr hs]
          cases rr with
          | error e => exact h
          | ok k => exact h
      | int signed w => exact h
      | pointer t' => exact h
      | float => exact h
      | ignored => exact h
    · intro s r h
      exact ihL _ _ h
    · intro l r h
      cases l with
      | nil => exact h
      | cons fd rest =>
        rw [sizeOfFields_cons_eq] at h
        rw [sizeOfFields_cons_eq]
        cases hs : sizeOfType d fuel fd.typ with
        | none => rw [hs] at h; exact Option.noConfusion h
        | some rr =>
          rw [hs] at h
          rw [ihT _ rr hs]
          cases rr with
          | error e => exact h
          | ok k =>
            cases hr : sizeOfFields d fuel rest with
            | none => rw [hr] at h; exact Option.noConfusion h
            | some rr2 =>
              rw [hr] at h
              rw [ihL _ rr2 hr]
              cases rr2 with
              | error e => exact h
              | ok b => exact h

/-- A settled size computation is stable under any additional fuel. -/
lemma sizeOfType_mono_le (d : DecompData) {fuel fuel' : Nat} (hle : fuel ≤ fuel')
    {t : Typ} {r : Except ToPatchError Nat}
    (h : sizeOfType d fuel t = some r) : sizeOfType d fuel' t = some r := by
  induction fuel' , hle using Nat.le_induction with
  | base => exact h
  | succ fuel' hle ih => exact (size_mono d fuel').1 t r ih

/-- A settled field-sum computation is stable under any additional fuel. -/
lemma sizeOfFields_mono_le (d : DecompData) {fuel fuel' : Nat} (hle : fuel ≤ fuel')
    {l : List StructField} {r : Except ToPatchError Nat}
    (h : sizeOfFields d fuel l = some r) : sizeOfFields d fuel' l = some r := by
  induction fuel' , hle using Nat.le_induction with
  | base => exact h
  | succ fuel' hle ih => exact (size_mono d fuel').2.2 l r ih

/-! ## C7 as amended: the size calculator case equations -/

/-- C7 as amended: `size_of_type` returns the byte width for an integer,
the fixed 8 for a pointer (regardless of the pointee — the pointee subtree
is never examined, which refutes the original "any subtree" clause), the
fixed 4 for a float, element size times element count for an array, the
in-order sum of the field sizes for composites, the `NoStruct` error for a
named composite missing from the registry, and the `IgnoredType` error when
the type itself (or a subtree actually traversed: an array element or a
composite field) is the unrepresentable sentinel. -/
theorem c7_size_of_type :
    (∀ (d : DecompData) (fuel : Nat) (signed : Bool) (w : Nat),
        sizeOfType d (fuel + 1) (.int signed w) = some (.ok w)) ∧
    (∀ (d : DecompData) (fuel : Nat) (t : Typ),
        sizeOfType d (fuel + 1) (.pointer t) = some (.ok 8)) ∧
    (∀ (d : DecompData) (fuel : Nat), sizeOfType d (fuel + 1) .float = some (.ok 4)) ∧
    (∀ (d : DecompData) (fuel : Nat) (et : Typ) (n k : Nat),
        sizeOfType d fuel et = some (.ok k) →
        sizeOfType d (fuel + 1) (.array et n) = some (.ok (k * n))) ∧
    (∀ (d : DecompData) (fuel : Nat) (s : Strukt),
        sizeOfType d (fuel + 2) (.anonStruct s) = sizeOfFields d fuel s.fields) ∧
    (∀ (d : DecompData) (fuel : Nat) (fields : List StructField) (sz : StructField → Nat),
        (∀ fd ∈ fields, sizeOfType d fuel fd.typ = some (.ok (sz fd))) →
        sizeOfFields d (fuel + fields.length + 1) fields = some (.ok (fields.map sz).sum)) ∧
    (∀ (d : DecompData) (fuel : Nat) (name : String),
        d.lookupStruct name = none →
        sizeOfType d (fuel + 1) (.struct name) = some (.error (.noStruct name))) ∧
    (∀ (d : DecompData) (fuel : Nat), sizeOfType d (fuel + 1) .ignored = some (.error .ignoredType)) ∧
    (∀ (d : DecompData) (fuel : Nat) (et : Typ) (n : Nat) (e : ToPatchError),
        sizeOfType d fuel et = some (.error e) →
        sizeOfType d (fuel + 1) (.array et n) = some (.error e)) ∧
    (∀ (d : DecompData) (fuel : Nat) (fd : StructField) (rest : List StructField)
        (e : ToPatchError),
        sizeOfType d fuel fd.typ = some (.error e) →
        sizeOfFields d (fuel + 1) (fd :: rest) = some (.error e)) ∧
    (∀ (d : DecompData) (fuel : Nat) (fd : StructField) (rest : List StructField)
        (k : Nat) (e : ToPatchError),
        sizeOfType d fuel fd.typ = some (.ok k) →
        sizeOfFields d fuel rest = some (.error e) →
        sizeOfFields d (fuel + 1) (fd :: rest) = some (.error e)) := by
  refine ⟨fun d fuel signed w => rfl, fun d fuel t => rfl, fun d fuel => rfl,
    ?_, fun d fuel s => rfl, ?_, ?_, fun d fuel => rfl, ?_, ?_, ?_⟩
  · intro d fuel et n k h
    simp only [sizeOfType, h]
  · intro d fuel fields sz h
    induction fields with
    | nil => rfl
    | cons fd rest ih =>
      have hfd : sizeOfType d (fuel + rest.length + 1) fd.typ = some (.ok (sz fd)) :=
        sizeOfType_mono_le d (by omega) (h fd (List.mem_cons_self fd rest))
      have hrest : sizeOfFields d (fuel + rest.length + 1) rest = some (.ok (rest.map sz).sum) := by
        have := ih (fun fd' hfd' => h fd' (List.mem_cons_of_mem fd hfd'))
        simpa [Nat.add_assoc, Nat.add_comm, Nat.add_left_comm] using this
      have hlen : fuel + (fd :: rest).length + 1 = (fuel + rest.length + 1) + 1 := by
        simp [List.length_cons]
        omega
      rw [hlen]
      simp only [sizeOfFields, hfd, hrest, List.map_cons, List.sum_cons]
  · intro d fuel name h
    simp only [sizeOfType, h]
  · intro d fuel et n e h
    simp only [sizeOfType_array_eq, h]
  · intro d fuel fd rest e h
    simp only [sizeOfFields_cons_eq, h]
  · intro d fuel fd rest k e h1 h2
    simp only [sizeOfFields_cons_eq, h1, h2]

/-- Witness for C7: concrete evaluations of each clause, including the
`IgnoredType` error surfacing from a traversed array element and from a
traversed composite field (first or later). -/
theorem c7_size_of_type_witness :
    sizeOfType emptyData 1 (.int false 4) = some (.ok 4) ∧
    sizeOfType emptyData 1 (.pointer .float) = some (.ok 8) ∧
    sizeOfType emptyData 2 (.array (.int false 2) 3) = some (.ok 6) ∧
    sizeOfFields emptyData 4
      [StructField.mk 0 "a" (.int false 1), StructField.mk 1 "b" (.int false 2)] =
        some (.ok 3) ∧
    sizeOfType emptyData 1 (.struct "nope") = some (.error (.noStruct "nope")) ∧
    sizeOfType emptyData 2 (.array .ignored 3) = some (.error .ignoredType) ∧
    sizeOfFields emptyData 2 [StructField.mk 0 "x" .ignored] =
      some (.error .ignoredType) ∧
    sizeOfFields emptyData 3
      [StructField.mk 0 "a" (.int false 1), StructField.mk 1 "b" .ignored] =
        some (.error .ignoredType) := by
  refine ⟨c7_size_of_type.1 emptyData 0 false 4, c7_size_of_type.2.1 emptyData 0 .float,
    ?_, ?_, c7_size_of_type.2.2.2.2.2.2.1 emptyData 0 "nope" rfl,
    c7_size_of_type.2.2.2.2.2.2.2.2.1 emptyData 1 .ignored 3 .ignoredType rfl,
    c7_size_of_type.2.2.2.2.2.2.2.2.2.1 emptyData 1 (StructField.mk 0 "x" .ignored) []
      .ignoredType rfl,
    c7_size_of_type.2.2.2.2.2.2.2.2.2.2 emptyData 2 (StructField.mk 0 "a" (.int false 1))
      [StructField.mk 1 "b" .ignored] 1 .ignoredType rfl rfl⟩
  · have h := c7_size_of_type.2.2.2.1 emptyData 1 (.int false 2) 3 2 rfl
    simpa using h
  · have h := c7_size_of_type.2.2.2.2.2.1 emptyData 1
      [StructField.mk 0 "a" (.int false 1), StructField.mk 1 "b" (.int false 2)]
      (fun fd => fd.offset + 1) (by intro fd hfd; fin_cases hfd <;> rfl)
    simpa using h

/-! ## C2: termination -/

/-- A member of an `OkFields` list has an `OkTyp` type. -/
lemma okFields_mem : ∀ {l : List StructField} {fd : StructField},
    OkFields l → fd ∈ l → OkTyp fd.typ := by
  intro l
  induction l with
  | nil => intro fd _ hm; cases hm
  | cons fd0 rest ih =>
    intro fd h hm
    cases h with
    | cons _ _ ht hr =>
      rcases List.mem_cons.mp hm with rfl | hm2
      · exact ht
      · exact ih hr hm2

/-- A field's type is structurally smaller than the field. -/
lemma sizeOf_field_typ (fd : StructField) : sizeOf fd.typ < sizeOf fd := by
  cases fd with
  | mk o nm t => simp [StructField.typ]

/-- One-step unfolding of `addrAccumToLvalue`. -/
lemma addrAccum_succ_eq (d : DecompData) (fuel : Nat) (accum : LeftValue) (addr accumAddr : Nat) :
    addrAccumToLvalue d (fuel + 1) accum addr accumAddr =
      (match accum.typ with
        | .anonStruct s => addrAndStructToLvalue d fuel accum addr s accumAddr
        | .struct name =>
          match d.lookupStruct name with
          | none => some (.error (.noStruct name))
          | some s => addrAndStructToLvalue d fuel accum addr s accumAddr
        | .int _ _ => some (.ok accum)
        | .float => some (.ok accum)
        | .array elementType numElements =>
          match sizeOfType d fuel elementType with
          | none => none
          | some (.error e) => some (.error e)
          | some (.ok elementTypeSize) =>
            if elementTypeSize = 0 then none
            else if numElements ≤ (addr - accumAddr) / elementTypeSize then
              some (.error (.arrayOutOfBounds addr accum))
            else
              addrAccumToLvalue d fuel
                (.mk (.arrayIndex accum ((addr - accumAddr) / elementTypeSize)) elementType
                  (accumAddr + (addr - accumAddr) / elementTypeSize * elementTypeSize))
                addr (accumAddr + (addr - accumAddr) / elementTypeSize * elementTypeSize)
        | .pointer _ => some (.error (.pointerAssign addr))
        | .ignored => some (.error .ignoredType)) := rfl

/-- One-step unfolding of `addrAndStructToLvalue`. -/
lemma addrAndStruct_succ_eq (d : DecompData) (fuel : Nat) (accum : LeftValue) (addr : Nat)
    (s : Strukt) (accumAddr : Nat) :
    addrAndStructToLvalue d (fuel + 1) accum addr s accumAddr =
      (match s.fields.reverse.find? (fun fd => decide (accumAddr + fd.offset ≤ addr)) with
        | none => some (.error (.noField addr))
        | some fd =>
          addrAccumToLvalue d fuel
            (.mk (.structField accum fd.name) fd.typ (accumAddr + fd.offset))
            addr (accumAddr + fd.offset)) := rfl

/-- Adequate fuel for well-behaved types: the size calculator completes with
fuel equal to the structural size of the type, and the resolver's descent
completes with twice that; the measure `n` drives the induction. -/
lemma ok_adequate : ∀ n : Nat,
    (∀ t : Typ, sizeOf t ≤ n → OkTyp t → ∀ (d : DecompData) (f : Nat), sizeOf t ≤ f →
      (sizeOfType d f t).isSome = true) ∧
    (∀ s : Strukt, sizeOf s ≤ n → OkFields s.fields → ∀ (d : DecompData) (f : Nat), sizeOf s ≤ f →
      (sizeOfStruct d f s).isSome = true) ∧
    (∀ l : List StructField, sizeOf l ≤ n → OkFields l → ∀ (d : DecompData) (f : Nat), sizeOf l ≤ f →
      (sizeOfFields d f l).isSome = true) ∧
    (∀ (t : Typ) (kind : LeftValueKind) (lvA : Nat), sizeOf t ≤ n → OkTyp t →
      ∀ (d : DecompData) (f a aa : Nat), 2 * sizeOf t ≤ f →
      (addrAccumToLvalue d f (.mk kind t lvA) a aa).isSome = true) ∧
    (∀ s : Strukt, sizeOf s ≤ n → OkFields s.fields →
      ∀ (d : DecompData) (f : Nat) (accum : LeftValue) (a aa : Nat), 2 * sizeOf s + 1 ≤ f →
      (addrAndStructToLvalue d f accum a s aa).isSome = true) := by
  intro n
  induction n with
  | zero =>
    refine ⟨?_, ?_, ?_, ?_, ?_⟩
    · intro t hsz hok
      cases hok <;> simp_all
    · intro s hsz
      exfalso; cases s; simp_all
    · intro l hsz
      exfalso
      cases l with
      | nil => simp_all
      | cons fd rest => simp_all
    · intro t kind lvA hsz hok
      cases hok <;> simp_all
    · intro s hsz
      exfalso; cases s; simp_all
  | succ n ih =>
    obtain ⟨ihT, ihS, ihL, ihA, ihF⟩ := ih
    refine ⟨?_, ?_, ?_, ?_, ?_⟩
    · intro t hsz hok d f hf
      cases hok with
      | anonStruct s hofl =>
        have hexp : sizeOf (Typ.anonStruct s) = 1 + sizeOf s := by simp
        cases f with
        | zero => omega
        | succ g =>
          exact ihS s (by omega) hofl d g (by omega)
      | array e m hoke hne =>
        have hexp : sizeOf (Typ.array e m) = 1 + sizeOf e + sizeOf m := by simp
        cases f with
        | zero => omega
        | succ g =>
          rw [sizeOfType_array_eq]
          obtain ⟨r, hr⟩ := Option.isSome_iff_exists.mp (ihT e (by omega) hoke d g (by omega))
          rw [hr]
          cases r with
          | error e2 => rfl
          | ok k => rfl
      | int signed w =>
        cases f with
        | zero => simp at hf
        | succ g => rfl
      | pointer t' =>
        cases f with
        | zero => simp at hf
        | succ g => rfl
      | float =>
        cases f with
        | zero => simp at hf
        | succ g => rfl
      | ignored =>
        cases f with
        | zero => simp at hf
        | succ g => rfl
    · intro s hsz hofl d f hf
      have hexp : sizeOf s = 1 + sizeOf s.fields := by cases s; simp [Strukt.fields]
      cases f with
      | zero => omega
      | succ g => exact ihL s.fields (by omega) hofl d g (by omega)
    · intro l hsz hofl d f hf
      cases l with
      | nil =>
        cases f with
        | zero => simp_all
        | succ g => rfl
      | cons fd rest =>
        have hexp : sizeOf (fd :: rest) = 1 + sizeOf fd + sizeOf rest := by simp
        have hft := sizeOf_field_typ fd
        cases hofl with
        | cons _ _ hokt hrest =>
          cases f with
          | zero => omega
          | succ g =>
            rw [sizeOfFields_cons_eq]
            obtain ⟨r, hr⟩ :=
              Option.isSome_iff_exists.mp (ihT fd.typ (by omega) hokt d g (by omega))
            rw [hr]
            cases r with
            | error e2 => rfl
            | ok k =>
              obtain ⟨r2, hr2⟩ :=
                Option.isSome_iff_exists.mp (ihL rest (by omega) hrest d g (by omega))
              rw [hr2]
              cases r2 with
              | error e2 => rfl
              | ok b => rfl
    · intro t kind lvA hsz hok d f a aa hf
      cases hok with
      | anonStruct s hofl =>
        have hexp : sizeOf (Typ.anonStruct s) = 1 + sizeOf s := by simp
        cases f with
        | zero => omega
        | succ g =>
          rw [addrAccum_succ_eq]
          simp only [LeftValue.typ]
          exact ihF s (by omega) hofl d g _ a aa (by omega)
      | array e m hoke hne =>
        have hexp : sizeOf (Typ.array e m) = 1 + sizeOf e + sizeOf m := by simp
        cases f with
        | zero => omega
        | succ g =>
          rw [addrAccum_succ_eq]
          simp only [LeftValue.typ]
          obtain ⟨r, hr⟩ := Option.isSome_iff_exists.mp (ihT e (by omega) hoke d g (by omega))
          cases r with
          | error e2 => rw [hr]; rfl
          | ok k =>
            simp only [hr]
            have hk : ¬ k = 0 := fun h0 => hne d g (h0 ▸ hr)
            rw [if_neg hk]
            by_cases hi : m ≤ (a - aa) / k
            · rw [if_pos hi]; rfl
            · rw [if_neg hi]
              exact ihA e _ _ (by omega) hoke d g a _ (by omega)
      | int signed w =>
        cases f with
        | zero => simp at hf
        | succ g => rfl
      | pointer t' =>
        cases f with
        | zero => simp at hf
        | succ g => rfl
      | float =>
        cases f with
        | zero => simp at hf
        | succ g => rfl
      | ignored =>
        cases f with
        | zero => simp at hf
        | succ g => rfl
    · intro s hsz hofl d f accum a aa hf
      have hexp : sizeOf s = 1 + sizeOf s.fields := by cases s; simp [Strukt.fields]
      cases f with
      | zero => omega
      | succ g =>
        rw [addrAndStruct_succ_eq]
        cases hfind : s.fields.reverse.find? (fun fd => decide (aa + fd.offset ≤ a)) with
        | none => rfl
        | some fd =>
          have hmem : fd ∈ s.fields :=
            List.mem_reverse.mp (List.mem_of_find?_eq_some hfind)
          have hlt : sizeOf fd < sizeOf s.fields := List.sizeOf_lt_of_mem hmem
          have hft := sizeOf_field_typ fd
          exact ihA fd.typ _ _ (by omega) (okFields_mem hofl hmem) d g a _ (by omega)

/-- On the cyclic layout, the descent from any accumulator of type
`struct S` at target address 0 and cumulative address 0 never produces a
result, whatever the fuel: each registry jump re-enters `struct S`. -/
lemma cyclic_loop : ∀ fuel : Nat, ∀ accum : LeftValue, accum.typ = .struct "S" →
    addrAccumToLvalue cyclicData fuel accum 0 0 = none := by
  intro fuel
  induction fuel using Nat.strong_induction_on with
  | _ fuel ih =>
    intro accum htyp
    match fuel with
    | 0 => rfl
    | g + 1 =>
      rw [addrAccum_succ_eq, htyp]
      show addrAndStructToLvalue cyclicData g accum 0 (.mk [.mk 0 "f" (.struct "S")]) 0 = none
      match g with
      | 0 => rfl
      | g' + 1 =>
        rw [addrAndStruct_succ_eq]
        exact ih g' (by omega) _ rfl

/-- On the cyclic layout, resolution of address 0 never returns. -/
lemma cyclic_resolve_none (fuel : Nat) : addrToLvalue cyclicData fuel 0 = none :=
  cyclic_loop fuel (.mk (.ident "s0") (.struct "S") 0) rfl

/-- C2, counterexample: with the self-referential registry, `format_write`
of a byte at address 0 never returns a result for any recursion budget —
the claim's universal termination over every layout model fails. -/
theorem c2_counterexample :
    ¬ ∃ fuel : Nat, (formatWrite cyclicData fuel .bits8 0 0).isSome = true := by
  rintro ⟨fuel, hf⟩
  match fuel with
  | 0 => exact Bool.noConfusion hf
  | g + 1 =>
    rw [show formatWrite cyclicData (g + 1) .bits8 0 0 = none by
      simp only [formatWrite, cyclic_resolve_none g]] at hf
    exact Bool.noConfusion hf

/-- C2 as amended: termination holds on well-behaved types rather than for
every layout model.  For types free of named-composite references (with
positive array element sizes), the size calculator completes within fuel
equal to the type-tree size and the resolver within twice that, on any
layout model; and the generators return generated text whenever their
constituent accesses resolve with a shift — including the single
boundary-crossing split, which performs exactly one more recursive call.
(For general layout models the claim fails: see the cyclic-registry
counterexample.) -/
theorem c2_termination :
    (∀ t : Typ, OkTyp t → ∀ (d : DecompData) (fuel : Nat), sizeOf t ≤ fuel →
        (sizeOfType d fuel t).isSome = true) ∧
    (∀ (d : DecompData) (a : Nat) (decl : Decl) (t : Typ) (fuel : Nat),
        d.floorDecl a = some decl → decl.kind = .var t → OkTyp t →
        2 * sizeOf t ≤ fuel → (addrToLvalue d fuel a).isSome = true) ∧
    (∀ (d : DecompData) (fuel : Nat) (ws : ValueSize) (v a : Nat) (lv : LeftValue) (sh : Nat),
        addrToLvalue d fuel a = some (.ok lv) →
        lvalueGetShift d fuel lv ws a = some (.ok (some sh)) →
        formatWrite d (fuel + 1) ws v a = some (.ok (writeText lv ws sh v ""))) ∧
    (∀ (d : DecompData) (fuel : Nat) (ws : ValueSize) (v a : Nat) (lv : LeftValue) (s : String),
        addrToLvalue d fuel a = some (.ok lv) →
        lvalueGetShift d fuel lv ws a = some (.ok none) →
        formatWrite d fuel .bits8 (v &&& 0xff) (a + 1) = some (.ok s) →
        formatWrite d (fuel + 1) ws v a =
          some (.ok (writeText lv .bits8 0 (v >>> 8) (" " ++ s)))) ∧
    (∀ (d : DecompData) (fuel : Nat) (ws : ValueSize) (v a : Nat) (eq : Bool)
        (lv : LeftValue) (sh : Nat),
        addrToLvalue d fuel a = some (.ok lv) →
        lvalueGetShift d fuel lv ws a = some (.ok (some sh)) →
        formatCheck d (fuel + 1) ws v a eq = some (.ok (checkText lv ws sh v eq ""))) := by
  refine ⟨?_, ?_, ?_, ?_, ?_⟩
  · intro t hok d fuel hf
    exact (ok_adequate (sizeOf t)).1 t le_rfl hok d fuel hf
  · intro d a decl t fuel hfloor hkind hok hf
    simp only [addrToLvalue, hfloor, hkind]
    exact (ok_adequate (sizeOf t)).2.2.2.1 t _ _ le_rfl hok d fuel a decl.addr hf
  · intro d fuel ws v a lv sh hres hshift
    simp only [formatWrite, hres, hshift]
  · intro d fuel ws v a lv s hres hshift hnext
    simp only [formatWrite, hres, hshift, hnext]
  · intro d fuel ws v a eq lv sh hres hshift
    simp only [formatCheck, hres, hshift]

/-- Witness for C2: each conjunct at concrete fixture inputs. -/
theorem c2_termination_witness :
    (sizeOfType fixtureData 3 (.int false 1)).isSome = true ∧
    (addrToLvalue fixtureData 8 0x8000).isSome = true ∧
    formatWrite fixtureData 20 .bits8 0xaa 0x8004 =
      some (.ok (writeText (.mk (.ident "E") (.int false 4) 0x8004) .bits8 24 0xaa "")) ∧
    formatWrite fixtureData 20 .bits16 0xabcd 0x8000 =
      some (.ok (writeText (.mk (.ident "A") (.int false 1) 0x8000) .bits8 0 (0xabcd >>> 8)
        (" " ++ "B = (B & 0xffffffffffffff00) | 0xcd;"))) ∧
    formatCheck fixtureData 20 .bits8 0xaa 0x8000 true =
      some (.ok (checkText (.mk (.ident "A") (.int false 1) 0x8000) .bits8 0 0xaa true "")) := by
  refine ⟨?_, ?_, ?_, ?_, ?_⟩
  · exact c2_termination.1 (.int false 1) (.int false 1) fixtureData 3 (by simp)
  · exact c2_termination.2.1 fixtureData 0x8000 (intDecl 0x8000 1 "A") (.int false 1) 8
      rfl rfl (.int false 1) (by simp)
  · exact c2_termination.2.2.1 fixtureData 19 .bits8 0xaa 0x8004
      (.mk (.ident "E") (.int false 4) 0x8004) 24 rfl rfl
  · exact c2_termination.2.2.2.1 fixtureData 19 .bits16 0xabcd 0x8000
      (.mk (.ident "A") (.int false 1) 0x8000) "B = (B & 0xffffffffffffff00) | 0xcd;" rfl rfl rfl
  · exact c2_termination.2.2.2.2 fixtureData 19 .bits8 0xaa 0x8000 true
      (.mk (.ident "A") (.int false 1) 0x8000) 0 rfl rfl

/-! ## C10 and C3: hexadecimal digit-string infrastructure -/

/-- `hexPadT` of zero is a run of `'0'`. -/
lemma hexPadT_zero : ∀ w : Nat, hexPadT w 0 = List.replicate w '0' := by
  intro w
  induction w with
  | zero => rfl
  | succ w ih =>
    show hexPadT w (0 / 16) ++ [hexDigitUpper (0 % 16)] = _
    rw [Nat.zero_div, ih]
    rw [show hexDigitUpper (0 % 16) = '0' from rfl]
    rw [← List.replicate_succ']

/-- `hexPadT` always has exactly the requested width. -/
lemma hexPadT_length : ∀ w n : Nat, (hexPadT w n).length = w := by
  intro w
  induction w with
  | zero => intro n; rfl
  | succ w ih => intro n; simp [hexPadT, ih]

/-- Every character of `hexPadT` is an uppercase hexadecimal digit. -/
lemma hexPadT_mem : ∀ w n : Nat, ∀ c ∈ hexPadT w n, ∃ m, m < 16 ∧ c = hexDigitUpper m := by
  intro w
  induction w with
  | zero => intro n c hc; cases hc
  | succ w ih =>
    intro n c hc
    rcases List.mem_append.mp hc with hc2 | hc2
    · exact ih (n / 16) c hc2
    · exact ⟨n % 16, Nat.mod_lt _ (by omega), List.mem_singleton.mp hc2⟩

/-- Uppercase hexadecimal digits are not whitespace. -/
lemma hexDigitUpper_not_ws : ∀ m, m < 16 → isWs (hexDigitUpper m) = false := by decide

/-- Uppercase hexadecimal digits are not the plus sign. -/
lemma hexDigitUpper_ne_plus : ∀ m, m < 16 → hexDigitUpper m ≠ '+' := by decide

/-- Parsing inverts formatting on one digit. -/
lemma hexDigitVal_upper : ∀ m, m < 16 → hexDigitVal (hexDigitUpper m) = some m := by decide

/-- The high-digit decomposition of a residue: the top `w` hex digits carry
`n / 16 % 16 ^ w`, the last digit carries `n % 16`. -/
lemma mod_pow_split (n w : Nat) : n % 16 ^ (w + 1) = 16 * (n / 16 % 16 ^ w) + n % 16 := by
  have hM : 0 < 16 ^ w := Nat.pow_pos (by omega)
  have hr : n % 16 < 16 := Nat.mod_lt _ (by omega)
  have hqM : n / 16 % 16 ^ w < 16 ^ w := Nat.mod_lt _ hM
  conv_lhs => rw [← Nat.div_add_mod n 16, pow_succ']
  rw [Nat.add_mod, Nat.mul_mod_mul_left,
    Nat.mod_eq_of_lt (show n % 16 < 16 * 16 ^ w by omega)]
  exact Nat.mod_eq_of_lt (by omega)

/-- Splitting a left-appended word off a hex-digit fold. -/
lemma parseHexGo_append (xs ys : List Char) (acc : Nat) :
    parseHexGo (xs ++ ys) acc =
      (match parseHexGo xs acc with
        | none => none
        | some m => parseHexGo ys m) := by
  induction xs generalizing acc with
  | nil => rfl
  | cons c r ih =>
    simp only [List.cons_append, parseHexGo]
    cases hexDigitVal c with
    | none => rfl
    | some v => exact ih _

/-- The fold parses a fixed-width hex rendering back to the padded value. -/
lemma parseHexGo_hexPadT : ∀ w n acc : Nat,
    parseHexGo (hexPadT w n) acc = some (acc * 16 ^ w + n % 16 ^ w) := by
  intro w
  induction w with
  | zero =>
    intro n acc
    simp [hexPadT, parseHexGo, Nat.mod_one]
  | succ w ih =>
    intro n acc
    show parseHexGo (hexPadT w (n / 16) ++ [hexDigitUpper (n % 16)]) acc = _
    rw [parseHexGo_append, ih]
    simp only [parseHexGo, hexDigitVal_upper (n % 16) (Nat.mod_lt _ (by omega))]
    congr 1
    rw [mod_pow_split n w, pow_succ]
    ring

/-- Padding an appended digit commutes with padding the prefix. -/
lemma padLeftZeros_append_singleton (w : Nat) (xs : List Char) (c : Char) :
    padLeftZeros (w + 1) (xs ++ [c]) = padLeftZeros w xs ++ [c] := by
  simp only [padLeftZeros, List.length_append, List.length_singleton]
  rw [show w + 1 - (xs.length + 1) = w - xs.length from by omega, List.append_assoc]

/-- The `{:0w$X}` rendering agrees with `hexPadT` for in-range values. -/
lemma hexMinUpperGo_pad : ∀ w fuel n : Nat, n < 16 ^ (w + 1) → n < fuel →
    padLeftZeros (w + 1) (hexMinUpperGo fuel n) = hexPadT (w + 1) n := by
  intro w
  induction w with
  | zero =>
    intro fuel n hn hf
    match fuel with
    | f + 1 =>
      have h16 : n < 16 := by simpa using hn
      show padLeftZeros 1 (hexMinUpperGo (f + 1) n) = hexPadT 1 n
      rw [hexMinUpperGo, if_pos h16]
      simp [padLeftZeros, hexPadT, Nat.mod_eq_of_lt h16, Nat.div_eq_of_lt h16]
  | succ w ih =>
    intro fuel n hn hf
    match fuel with
    | f + 1 =>
      by_cases h16 : n < 16
      · rw [hexMinUpperGo, if_pos h16]
        show padLeftZeros (w + 2) [hexDigitUpper n] = hexPadT (w + 2) n
        have : hexPadT (w + 2) n = hexPadT (w + 1) 0 ++ [hexDigitUpper n] := by
          show hexPadT (w + 1) (n / 16) ++ [hexDigitUpper (n % 16)] = _
          rw [Nat.div_eq_of_lt h16, Nat.mod_eq_of_lt h16]
        rw [this, hexPadT_zero]
        simp [padLeftZeros]
      · rw [hexMinUpperGo, if_neg h16]
        have hdiv : n / 16 < 16 ^ (w + 1) := by
          rw [Nat.div_lt_iff_lt_mul (by omega : (0:Nat) < 16)]
          calc n < 16 ^ (w + 2) := hn
            _ = 16 ^ (w + 1) * 16 := by rw [pow_succ]
        have hfuel : n / 16 < f := by
          have h1 : n / 16 < n := Nat.div_lt_self (by omega) (by omega)
          omega
        rw [padLeftZeros_append_singleton, ih f (n / 16) hdiv hfuel]
        rfl

/-- The `{:0w$X}` rendering is `hexPadT` for in-range values. -/
lemma hexUpperPad_eq (w n : Nat) (h : n < 16 ^ (w + 1)) :
    hexUpperPad (w + 1) n = hexPadT (w + 1) n :=
  hexMinUpperGo_pad w (n + 1) n h (Nat.lt_succ_self n)

/-- Splitting a fixed-width hex rendering into high and low digit groups. -/
lemma hexPadT_add : ∀ (w2 w1 n : Nat),
    hexPadT (w1 + w2) n = hexPadT w1 (n / 16 ^ w2) ++ hexPadT w2 (n % 16 ^ w2) := by
  intro w2
  induction w2 with
  | zero =>
    intro w1 n
    simp [hexPadT]
  | succ w2 ih =>
    intro w1 n
    show hexPadT (w1 + w2 + 1) n = _
    rw [show hexPadT (w1 + w2 + 1) n =
        hexPadT (w1 + w2) (n / 16) ++ [hexDigitUpper (n % 16)] from rfl]
    rw [ih w1 (n / 16)]
    have hdiv : n / 16 / 16 ^ w2 = n / 16 ^ (w2 + 1) := by
      rw [Nat.div_div_eq_div_mul, ← pow_succ']
    have hlow : hexPadT (w2 + 1) (n % 16 ^ (w2 + 1)) =
        hexPadT w2 (n / 16 % 16 ^ w2) ++ [hexDigitUpper (n % 16)] := by
      show hexPadT w2 (n % 16 ^ (w2 + 1) / 16) ++ [hexDigitUpper (n % 16 ^ (w2 + 1) % 16)] = _
      have h1 : n % 16 ^ (w2 + 1) / 16 = n / 16 % 16 ^ w2 := by
        rw [pow_succ']
        exact Nat.mod_mul_right_div_self n 16 (16 ^ w2)
      have h2 : n % 16 ^ (w2 + 1) % 16 = n % 16 :=
        Nat.mod_mod_of_dvd n ⟨16 ^ w2, pow_succ' 16 w2⟩
      rw [h1, h2]
    rw [hdiv, hlow, List.append_assoc]

/-- Prepending non-whitespace characters to the splitter moves them into the
current token. -/
lemma splitWsGo_no_ws : ∀ (t rest cur : List Char), (∀ c ∈ t, isWs c = false) →
    splitWsGo (t ++ rest) cur = splitWsGo rest (t.reverse ++ cur) := by
  intro t
  induction t with
  | nil => intro rest cur _; simp
  | cons c r ih =>
    intro rest cur h
    show splitWsGo (c :: (r ++ rest)) cur = _
    rw [splitWsGo, h c (List.mem_cons_self c r)]
    simp only [Bool.false_eq_true, if_false]
    rw [ih rest (c :: cur) (fun x hx => h x (List.mem_cons_of_mem c hx))]
    simp

/-- Splitting a canonical `token-space-token` line. -/
lemma splitWs_sep (t1 t2 : List Char)
    (h1 : ∀ c ∈ t1, isWs c = false) (h2 : ∀ c ∈ t2, isWs c = false) :
    splitWs (t1 ++ ' ' :: t2) =
      (if t1.isEmpty then [] else [t1]) ++ (if t2.isEmpty then [] else [t2]) := by
  unfold splitWs
  rw [splitWsGo_no_ws t1 (' ' :: t2) [] h1]
  rw [show (' ' :: t2 : List Char) = [' '] ++ t2 from rfl]
  show splitWsGo ([' '] ++ t2) (t1.reverse ++ []) = _
  rw [show splitWsGo ([' '] ++ t2) (t1.reverse ++ []) =
      if (t1.reverse ++ []).isEmpty then splitWsGo t2 []
      else (t1.reverse ++ []).reverse :: splitWsGo t2 [] from rfl]
  rw [show splitWsGo t2 [] = splitWsGo (t2 ++ []) [] from by rw [List.append_nil]]
  rw [splitWsGo_no_ws t2 [] [] h2]
  show _ = (if t1.isEmpty then [] else [t1]) ++ (if t2.isEmpty then [] else [t2])
  cases t1 with
  | nil =>
    cases t2 with
    | nil => rfl
    | cons c r => simp [splitWsGo]
  | cons c1 r1 =>
    cases t2 with
    | nil => simp [splitWsGo]
    | cons c2 r2 => simp [splitWsGo]

/-- `from_str_radix` on an all-uppercase-hex token is the digit fold. -/
lemma parseHexRadix_of_hex (l : List Char) (hne : l ≠ [])
    (hhex : ∀ c ∈ l, ∃ m, m < 16 ∧ c = hexDigitUpper m) (bound n : Nat)
    (hparse : parseHexGo l 0 = some n) (hlt : n < bound) :
    parseHexRadix l bound = some n := by
  cases l with
  | nil => exact absurd rfl hne
  | cons c r =>
    obtain ⟨m, hm, rfl⟩ := hhex c (List.mem_cons_self c r)
    simp only [parseHexRadix, List.head?_cons, Option.some.injEq,
      hexDigitUpper_ne_plus m hm, if_false, List.isEmpty_cons, Bool.false_eq_true,
      hparse, hlt, if_true]

/-- Masking with `0xFFFFFF` is reduction modulo `2^24`. -/
lemma land_mask24 (n : Nat) : n &&& 0xFFFFFF = n % 2 ^ 24 := by
  have h : (0xFFFFFF : Nat) = 2 ^ 24 - 1 := by norm_num
  apply Nat.eq_of_testBit_eq
  intro i
  rw [Nat.testBit_and, Nat.testBit_mod_two_pow, h, Nat.testBit_two_pow_sub_one,
    Bool.and_comm]

/-- Every character of `hexUpperChars` carries its digit value, below 16,
and formatting that value reproduces the character. -/
lemma upper_val : ∀ c ∈ hexUpperChars,
    ∃ m, hexDigitVal c = some m ∧ m < 16 ∧ hexDigitUpper m = c := by
  intro c hc
  fin_cases hc <;> exact ⟨_, rfl, by decide, rfl⟩

/-- Uppercase hexadecimal digit characters are not whitespace. -/
lemma upper_not_ws : ∀ c ∈ hexUpperChars, isWs c = false := by decide

/-- A digit character printing as `'0'` has value 0. -/
lemma digit_eq_zero : ∀ m, m < 16 → hexDigitUpper m = '0' → m = 0 := by decide

/-- Tokens drawn from `hexUpperChars` fold back to a unique value, below the
width bound, whose fixed-width rendering is the original token. -/
lemma parse_upper_inverse : ∀ l : List Char, l ≠ [] → (∀ c ∈ l, c ∈ hexUpperChars) →
    ∃ n, parseHexGo l 0 = some n ∧ n < 16 ^ l.length ∧ hexPadT l.length n = l := by
  intro l
  induction l using List.reverseRecOn with
  | nil => intro h; exact absurd rfl h
  | append_singleton xs x ih =>
    intro _ hhex
    obtain ⟨m, hval, hm, hchar⟩ := upper_val x (hhex x (List.mem_append_right _ (List.mem_singleton_self x)))
    by_cases hxs : xs = []
    · subst hxs
      refine ⟨m, ?_, ?_, ?_⟩
      · simp [parseHexGo, hval]
      · simpa using hm
      · show hexPadT 1 m = [x]
        show hexPadT 0 (m / 16) ++ [hexDigitUpper (m % 16)] = [x]
        rw [Nat.mod_eq_of_lt hm]
        simp [hexPadT, hchar]
    · obtain ⟨n, hp, hb, hpad⟩ := ih hxs (fun c hc => hhex c (List.mem_append_left _ hc))
      refine ⟨16 * n + m, ?_, ?_, ?_⟩
      · rw [parseHexGo_append, hp]
        simp [parseHexGo, hval]
      · rw [List.length_append, List.length_singleton, pow_succ]
        omega
      · rw [List.length_append, List.length_singleton]
        show hexPadT (xs.length + 1) (16 * n + m) = xs ++ [x]
        show hexPadT xs.length ((16 * n + m) / 16) ++ [hexDigitUpper ((16 * n + m) % 16)] = _
        have hdiv : (16 * n + m) / 16 = n := by omega
        have hmod : (16 * n + m) % 16 = m := by omega
        rw [hdiv, hmod, hpad, hchar]

/-- Assembling a rendered line from the two parsed numbers. -/
lemma render_assemble (c1 c2 : Char) (n1 v : Nat)
    (hc12 : hexPadT 2 (n1 >>> (8 * 3)) = [c1, c2])
    (hb2 : v < 16 ^ 4) :
    c1 :: c2 :: (hexUpperPad 6 (n1 &&& 0xFFFFFF) ++ ' ' :: hexUpperPad 4 v) =
      hexPadT 8 n1 ++ ' ' :: hexPadT 4 v := by
  have haddr : n1 &&& 0xFFFFFF < 16 ^ 6 := by
    rw [land_mask24]
    have := Nat.mod_lt n1 (show 0 < 2 ^ 24 by norm_num)
    omega
  rw [hexUpperPad_eq 5 _ haddr, hexUpperPad_eq 3 v hb2]
  have hsplit8 : hexPadT 8 n1 = hexPadT 2 (n1 >>> (8 * 3)) ++ hexPadT 6 (n1 &&& 0xFFFFFF) := by
    rw [land_mask24, Nat.shiftRight_eq_div_pow]
    rw [show (2 : Nat) ^ (8 * 3) = 16 ^ 6 from by norm_num]
    exact hexPadT_add 6 2 n1
  rw [hsplit8, hc12]
  rfl

/-- `CodeLine::from_str` on a canonically-rendered pair of tokens: the
opcode byte dispatches, the low 24 bits of the first token become the
address, and the value token is truncated to a byte for 8-bit operations. -/
lemma fromChars_canonical (tt addr v : Nat) (htt : tt < 256)
    (haddr : addr < 2 ^ 24) (hv : v < 2 ^ 16) :
    CodeLine.fromChars ((hexPadT 2 tt ++ hexPadT 6 addr) ++ ' ' :: hexPadT 4 v) =
      (if tt = 0x80 then .ok (.write8 addr (v % 2 ^ 8))
       else if tt = 0x81 then .ok (.write16 addr v)
       else if tt = 0xD0 then .ok (.ifEq8 addr (v % 2 ^ 8))
       else if tt = 0xD1 then .ok (.ifEq16 addr v)
       else if tt = 0xD2 then .ok (.ifNotEq8 addr (v % 2 ^ 8))
       else if tt = 0xD3 then .ok (.ifNotEq16 addr v)
       else .error .codeTypeError) := by
  have hmem1 : ∀ c ∈ hexPadT 2 tt ++ hexPadT 6 addr, ∃ m, m < 16 ∧ c = hexDigitUpper m := by
    intro c hc
    rcases List.mem_append.mp hc with hc2 | hc2
    · exact hexPadT_mem 2 tt c hc2
    · exact hexPadT_mem 6 addr c hc2
  have hmem2 : ∀ c ∈ hexPadT 4 v, ∃ m, m < 16 ∧ c = hexDigitUpper m := hexPadT_mem 4 v
  have hnws1 : ∀ c ∈ hexPadT 2 tt ++ hexPadT 6 addr, isWs c = false := by
    intro c hc
    obtain ⟨m, hm, rfl⟩ := hmem1 c hc
    exact hexDigitUpper_not_ws m hm
  have hnws2 : ∀ c ∈ hexPadT 4 v, isWs c = false := by
    intro c hc
    obtain ⟨m, hm, rfl⟩ := hmem2 c hc
    exact hexDigitUpper_not_ws m hm
  have hlen1 : (hexPadT 2 tt ++ hexPadT 6 addr).length = 8 := by
    rw [List.length_append, hexPadT_length, hexPadT_length]
  have hlen2 : (hexPadT 4 v).length = 4 := hexPadT_length 4 v
  have hne1 : hexPadT 2 tt ++ hexPadT 6 addr ≠ [] := by
    intro h
    rw [h] at hlen1
    exact absurd hlen1 (by decide)
  have hne2 : hexPadT 4 v ≠ [] := by
    intro h
    rw [h] at hlen2
    exact absurd hlen2 (by decide)
  have hsplit := splitWs_sep (hexPadT 2 tt ++ hexPadT 6 addr) (hexPadT 4 v) hnws1 hnws2
  rw [List.isEmpty_eq_false.mpr hne1, List.isEmpty_eq_false.mpr hne2] at hsplit
  simp only [Bool.false_eq_true, if_false, List.singleton_append] at hsplit
  have h162 : (16 : Nat) ^ 2 = 256 := by norm_num
  have h164 : (16 : Nat) ^ 4 = 65536 := by norm_num
  have h166 : (16 : Nat) ^ 6 = 16777216 := by norm_num
  have h224 : (2 : Nat) ^ 24 = 16777216 := by norm_num
  have h232 : (2 : Nat) ^ 32 = 4294967296 := by norm_num
  have h216 : (2 : Nat) ^ 16 = 65536 := by norm_num
  have e1 : parseHexGo (hexPadT 2 tt) 0 = some tt := by
    rw [parseHexGo_hexPadT]
    congr 1
    rw [Nat.mod_eq_of_lt (by omega)]
    ring
  have hp1 : parseHexGo (hexPadT 2 tt ++ hexPadT 6 addr) 0 = some (tt * 2 ^ 24 + addr) := by
    rw [parseHexGo_append, e1]
    show parseHexGo (hexPadT 6 addr) tt = _
    rw [parseHexGo_hexPadT]
    congr 1
    rw [Nat.mod_eq_of_lt (by omega), h166, h224]
  have hr1 : parseHexRadix (hexPadT 2 tt ++ hexPadT 6 addr) (2 ^ 32) =
      some (tt * 2 ^ 24 + addr) :=
    parseHexRadix_of_hex _ hne1 hmem1 _ _ hp1 (by omega)
  have hp2 : parseHexGo (hexPadT 4 v) 0 = some v := by
    rw [parseHexGo_hexPadT]
    congr 1
    rw [Nat.mod_eq_of_lt (by omega)]
    ring
  have hr2 : parseHexRadix (hexPadT 4 v) (2 ^ 16) = some v :=
    parseHexRadix_of_hex _ hne2 hmem2 _ _ hp2 hv
  have hct : (tt * 2 ^ 24 + addr) >>> (8 * 3) = tt := by
    rw [Nat.shiftRight_eq_div_pow]
    rw [show (2 : Nat) ^ (8 * 3) = 2 ^ 24 from by norm_num]
    rw [show tt * 2 ^ 24 = 2 ^ 24 * tt from Nat.mul_comm _ _]
    rw [Nat.mul_add_div (by omega), Nat.div_eq_of_lt haddr]
    omega
  have hland : (tt * 2 ^ 24 + addr) &&& 0xFFFFFF = addr := by
    rw [land_mask24, show tt * 2 ^ 24 = 2 ^ 24 * tt from Nat.mul_comm _ _,
      Nat.mul_add_mod, Nat.mod_eq_of_lt haddr]
  simp only [CodeLine.fromChars, hsplit, hlen1, hlen2, hr1, hr2, hct, hland, if_true]

/-! ## C10: render-then-parse identity -/

/-- C10: for every code line whose address fits in 24 bits (and whose value
fits its Rust field type), rendering with `Display` and re-parsing with
`from_str` returns the original line — including 8-bit operations, whose
value renders as four hex digits with a zero high byte. -/
theorem c10_render_parse (line : CodeLine) (hwf : line.wf) (haddr : line.addr < 2 ^ 24) :
    CodeLine.fromStr (CodeLine.render line) = .ok line := by
  have h166 : (16 : Nat) ^ 6 = 2 ^ 24 := by norm_num
  cases line with
  | write8 a v =>
    have hv8 : v < 2 ^ 8 := hwf
    have ha : a < 2 ^ 24 := haddr
    have e6 : hexUpperPad 6 a = hexPadT 6 a := hexUpperPad_eq 5 a (by omega)
    have e4 : hexUpperPad 4 v = hexPadT 4 v := hexUpperPad_eq 3 v (by omega)
    show CodeLine.fromChars ('8' :: '0' :: (hexUpperPad 6 a ++ ' ' :: hexUpperPad 4 v)) = _
    rw [e6, e4]
    rw [show ('8' :: '0' :: (hexPadT 6 a ++ ' ' :: hexPadT 4 v)) =
        (hexPadT 2 0x80 ++ hexPadT 6 a) ++ ' ' :: hexPadT 4 v from by simp [hexPadT]; decide]
    rw [fromChars_canonical 0x80 a v (by omega) ha (by omega)]
    rw [if_pos rfl, Nat.mod_eq_of_lt hv8]
  | write16 a v =>
    have hv16 : v < 2 ^ 16 := hwf
    have ha : a < 2 ^ 24 := haddr
    have e6 : hexUpperPad 6 a = hexPadT 6 a := hexUpperPad_eq 5 a (by omega)
    have e4 : hexUpperPad 4 v = hexPadT 4 v := hexUpperPad_eq 3 v (by omega)
    show CodeLine.fromChars ('8' :: '1' :: (hexUpperPad 6 a ++ ' ' :: hexUpperPad 4 v)) = _
    rw [e6, e4]
    rw [show ('8' :: '1' :: (hexPadT 6 a ++ ' ' :: hexPadT 4 v)) =
        (hexPadT 2 0x81 ++ hexPadT 6 a) ++ ' ' :: hexPadT 4 v from by simp [hexPadT]; decide]
    rw [fromChars_canonical 0x81 a v (by omega) ha hv16]
    rw [if_neg (by decide), if_pos rfl]
  | ifEq8 a v =>
    have hv8 : v < 2 ^ 8 := hwf
    have ha : a < 2 ^ 24 := haddr
    have e6 : hexUpperPad 6 a = hexPadT 6 a := hexUpperPad_eq 5 a (by omega)
    have e4 : hexUpperPad 4 v = hexPadT 4 v := hexUpperPad_eq 3 v (by omega)
    show CodeLine.fromChars ('D' :: '0' :: (hexUpperPad 6 a ++ ' ' :: hexUpperPad 4 v)) = _
    rw [e6, e4]
    rw [show ('D' :: '0' :: (hexPadT 6 a ++ ' ' :: hexPadT 4 v)) =
        (hexPadT 2 0xD0 ++ hexPadT 6 a) ++ ' ' :: hexPadT 4 v from by simp [hexPadT]; decide]
    rw [fromChars_canonical 0xD0 a v (by omega) ha (by omega)]
    rw [if_neg (by decide), if_neg (by decide), if_pos rfl, Nat.mod_eq_of_lt hv8]
  | ifEq16 a v =>
    have hv16 : v < 2 ^ 16 := hwf
    have ha : a < 2 ^ 24 := haddr
    have e6 : hexUpperPad 6 a = hexPadT 6 a := hexUpperPad_eq 5 a (by omega)
    have e4 : hexUpperPad 4 v = hexPadT 4 v := hexUpperPad_eq 3 v (by omega)
    show CodeLine.fromChars ('D' :: '1' :: (hexUpperPad 6 a ++ ' ' :: hexUpperPad 4 v)) = _
    rw [e6, e4]
    rw [show ('D' :: '1' :: (hexPadT 6 a ++ ' ' :: hexPadT 4 v)) =
        (hexPadT 2 0xD1 ++ hexPadT 6 a) ++ ' ' :: hexPadT 4 v from by simp [hexPadT]; decide]
    rw [fromChars_canonical 0xD1 a v (by omega) ha hv16]
    rw [if_neg (by decide), if_neg (by decide), if_neg (by decide), if_pos rfl]
  | ifNotEq8 a v =>
    have hv8 : v < 2 ^ 8 := hwf
    have ha : a < 2 ^ 24 := haddr
    have e6 : hexUpperPad 6 a = hexPadT 6 a := hexUpperPad_eq 5 a (by omega)
    have e4 : hexUpperPad 4 v = hexPadT 4 v := hexUpperPad_eq 3 v (by omega)
    show CodeLine.fromChars ('D' :: '2' :: (hexUpperPad 6 a ++ ' ' :: hexUpperPad 4 v)) = _
    rw [e6, e4]
    rw [show ('D' :: '2' :: (hexPadT 6 a ++ ' ' :: hexPadT 4 v)) =
        (hexPadT 2 0xD2 ++ hexPadT 6 a) ++ ' ' :: hexPadT 4 v from by simp [hexPadT]; decide]
    rw [fromChars_canonical 0xD2 a v (by omega) ha (by omega)]
    rw [if_neg (by decide), if_neg (by decide), if_neg (by decide), if_neg (by decide),
      if_pos rfl, Nat.mod_eq_of_lt hv8]
  | ifNotEq16 a v =>
    have hv16 : v < 2 ^ 16 := hwf
    have ha : a < 2 ^ 24 := haddr
    have e6 : hexUpperPad 6 a = hexPadT 6 a := hexUpperPad_eq 5 a (by omega)
    have e4 : hexUpperPad 4 v = hexPadT 4 v := hexUpperPad_eq 3 v (by omega)
    show CodeLine.fromChars ('D' :: '3' :: (hexUpperPad 6 a ++ ' ' :: hexUpperPad 4 v)) = _
    rw [e6, e4]
    rw [show ('D' :: '3' :: (hexPadT 6 a ++ ' ' :: hexPadT 4 v)) =
        (hexPadT 2 0xD3 ++ hexPadT 6 a) ++ ' ' :: hexPadT 4 v from by simp [hexPadT]; decide]
    rw [fromChars_canonical 0xD3 a v (by omega) ha hv16]
    rw [if_neg (by decide), if_neg (by decide), if_neg (by decide), if_neg (by decide),
      if_neg (by decide), if_pos rfl]

/-- Witness for C10: an 8-bit write with a zero-high-byte value rendering. -/
theorem c10_render_parse_witness :
    CodeLine.fromStr (CodeLine.render (.write8 0x33B21E 0x08)) =
      .ok (.write8 0x33B21E 0x08) :=
  c10_render_parse (.write8 0x33B21E 0x08)
    (show (0x08 : Nat) < 2 ^ 8 by decide) (show (0x33B21E : Nat) < 2 ^ 24 by decide)

/-! ## C3 as amended: parse-then-render on canonical input -/

/-- C3 as amended: parsing then re-rendering is byte-identical on canonical
input — two uppercase-hex tokens separated by a single space with no
surrounding whitespace, where for the 8-bit operations the value token's
high byte is zero.  (Lowercase digits, alternative separators, surrounding
whitespace, or a nonzero high byte in an 8-bit operation's value all parse
successfully but re-render differently, so the unconditional claim fails.) -/
theorem c3_roundtrip_canonical (t1 t2 : List Char) (line : CodeLine)
    (h1 : ∀ c ∈ t1, c ∈ hexUpperChars) (h2 : ∀ c ∈ t2, c ∈ hexUpperChars)
    (hok : CodeLine.fromChars (t1 ++ ' ' :: t2) = .ok line)
    (hhigh : line.is16Bit = true ∨ t2.take 2 = ['0', '0']) :
    CodeLine.renderChars line = t1 ++ ' ' :: t2 := by
  have hnws1 : ∀ c ∈ t1, isWs c = false := fun c hc => upper_not_ws c (h1 c hc)
  have hnws2 : ∀ c ∈ t2, isWs c = false := fun c hc => upper_not_ws c (h2 c hc)
  have hsplit := splitWs_sep t1 t2 hnws1 hnws2
  by_cases he1 : t1.isEmpty = true
  · exfalso
    rw [if_pos he1, List.nil_append] at hsplit
    by_cases he2 : t2.isEmpty = true
    · rw [if_pos he2] at hsplit
      simp only [CodeLine.fromChars, hsplit] at hok
      exact Except.noConfusion hok
    · rw [if_neg he2] at hsplit
      simp only [CodeLine.fromChars, hsplit] at hok
      exact Except.noConfusion hok
  · by_cases he2 : t2.isEmpty = true
    · exfalso
      rw [if_neg he1, if_pos he2, List.append_nil] at hsplit
      simp only [CodeLine.fromChars, hsplit] at hok
      exact Except.noConfusion hok
    · rw [if_neg he1, if_neg he2, List.singleton_append] at hsplit
      have hne1 : t1 ≠ [] := fun h => he1 (by rw [h]; rfl)
      have hne2 : t2 ≠ [] := fun h => he2 (by rw [h]; rfl)
      simp only [CodeLine.fromChars, hsplit] at hok
      by_cases hl1 : t1.length = 8
      · rw [if_pos hl1] at hok
        by_cases hl2 : t2.length = 4
        · rw [if_pos hl2] at hok
          obtain ⟨n1, hp1, hb1, hpad1⟩ := parse_upper_inverse t1 hne1 h1
          obtain ⟨v, hp2, hb2, hpad2⟩ := parse_upper_inverse t2 hne2 h2
          rw [hl1] at hb1 hpad1
          rw [hl2] at hb2 hpad2
          have hmem1 : ∀ c ∈ t1, ∃ m, m < 16 ∧ c = hexDigitUpper m := by
            intro c hc
            obtain ⟨m, _, hm, hc'⟩ := upper_val c (h1 c hc)
            exact ⟨m, hm, hc'.symm⟩
          have hmem2 : ∀ c ∈ t2, ∃ m, m < 16 ∧ c = hexDigitUpper m := by
            intro c hc
            obtain ⟨m, _, hm, hc'⟩ := upper_val c (h2 c hc)
            exact ⟨m, hm, hc'.symm⟩
          have h168 : (16 : Nat) ^ 8 = 2 ^ 32 := by norm_num
          have h164 : (16 : Nat) ^ 4 = 2 ^ 16 := by norm_num
          have hr1 := parseHexRadix_of_hex t1 hne1 hmem1 (2 ^ 32) n1 hp1 (by omega)
          have hr2 := parseHexRadix_of_hex t2 hne2 hmem2 (2 ^ 16) v hp2 (by omega)
          simp only [hr1, hr2] at hok
          have hval16 : v % 2 ^ 8 = v → v < 2 ^ 16 := fun _ => by omega
          -- value-token high byte: for the 8-bit lines derive v < 256
          have hv256 : t2.take 2 = ['0', '0'] → v < 2 ^ 8 := by
            intro htake
            have hsplit4 : hexPadT 4 v = hexPadT 2 (v / 16 ^ 2) ++ hexPadT 2 (v % 16 ^ 2) :=
              hexPadT_add 2 2 v
            rw [← hpad2, hsplit4, List.take_left' (hexPadT_length 2 _)] at htake
            have hexp : hexPadT 2 (v / 16 ^ 2) =
                [hexDigitUpper (v / 16 ^ 2 / 16 % 16), hexDigitUpper (v / 16 ^ 2 % 16)] := rfl
            rw [hexp] at htake
            simp only [List.cons.injEq, and_true] at htake
            have d1 := digit_eq_zero _ (Nat.mod_lt _ (by omega)) htake.1
            have d2 := digit_eq_zero _ (Nat.mod_lt _ (by omega)) htake.2
            have h162 : (16 : Nat) ^ 2 = 256 := by norm_num
            have h164' : (16 : Nat) ^ 4 = 65536 := by norm_num
            omega
          by_cases hc0 : n1 >>> (8 * 3) = 0x80
          · rw [if_pos hc0] at hok
            obtain rfl : line = .write8 (n1 &&& 0xFFFFFF) (v % 2 ^ 8) :=
              (Except.ok.inj hok).symm
            have htake : t2.take 2 = ['0', '0'] := by
              rcases hhigh with h16 | ht
              · exact absurd h16 (by simp [CodeLine.is16Bit])
              · exact ht
            have hv8 := hv256 htake
            show '8' :: '0' :: (hexUpperPad 6 (n1 &&& 0xFFFFFF) ++ ' ' ::
              hexUpperPad 4 (v % 2 ^ 8)) = t1 ++ ' ' :: t2
            rw [Nat.mod_eq_of_lt hv8, ← hpad1, ← hpad2]
            exact render_assemble '8' '0' n1 v (by rw [hc0]; decide) hb2
          · rw [if_neg hc0] at hok
            by_cases hc1 : n1 >>> (8 * 3) = 0x81
            · rw [if_pos hc1] at hok
              obtain rfl : line = .write16 (n1 &&& 0xFFFFFF) v := (Except.ok.inj hok).symm
              show '8' :: '1' :: (hexUpperPad 6 (n1 &&& 0xFFFFFF) ++ ' ' ::
                hexUpperPad 4 v) = t1 ++ ' ' :: t2
              rw [← hpad1, ← hpad2]
              exact render_assemble '8' '1' n1 v (by rw [hc1]; decide) hb2
            · rw [if_neg hc1] at hok
              by_cases hc2 : n1 >>> (8 * 3) = 0xD0
              · rw [if_pos hc2] at hok
                obtain rfl : line = .ifEq8 (n1 &&& 0xFFFFFF) (v % 2 ^ 8) :=
                  (Except.ok.inj hok).symm
                have htake : t2.take 2 = ['0', '0'] := by
                  rcases hhigh with h16 | ht
                  · exact absurd h16 (by simp [CodeLine.is16Bit])
                  · exact ht
                have hv8 := hv256 htake
                show 'D' :: '0' :: (hexUpperPad 6 (n1 &&& 0xFFFFFF) ++ ' ' ::
                  hexUpperPad 4 (v % 2 ^ 8)) = t1 ++ ' ' :: t2
                rw [Nat.mod_eq_of_lt hv8, ← hpad1, ← hpad2]
                exact render_assemble 'D' '0' n1 v (by rw [hc2]; decide) hb2
              · rw [if_neg hc2] at hok
                by_cases hc3 : n1 >>> (8 * 3) = 0xD1
                · rw [if_pos hc3] at hok
                  obtain rfl : line = .ifEq16 (n1 &&& 0xFFFFFF) v := (Except.ok.inj hok).symm
                  show 'D' :: '1' :: (hexUpperPad 6 (n1 &&& 0xFFFFFF) ++ ' ' ::
                    hexUpperPad 4 v) = t1 ++ ' ' :: t2
                  rw [← hpad1, ← hpad2]
                  exact render_assemble 'D' '1' n1 v (by rw [hc3]; decide) hb2
                · rw [if_neg hc3] at hok
                  by_cases hc4 : n1 >>> (8 * 3) = 0xD2
                  · rw [if_pos hc4] at hok
                    obtain rfl : line = .ifNotEq8 (n1 &&& 0xFFFFFF) (v % 2 ^ 8) :=
                      (Except.ok.inj hok).symm
                    have htake : t2.take 2 = ['0', '0'] := by
                      rcases hhigh with h16 | ht
                      · exact absurd h16 (by simp [CodeLine.is16Bit])
                      · exact ht
                    have hv8 := hv256 htake
                    show 'D' :: '2' :: (hexUpperPad 6 (n1 &&& 0xFFFFFF) ++ ' ' ::
                      hexUpperPad 4 (v % 2 ^ 8)) = t1 ++ ' ' :: t2
                    rw [Nat.mod_eq_of_lt hv8, ← hpad1, ← hpad2]
                    exact render_assemble 'D' '2' n1 v (by rw [hc4]; decide) hb2
                  · rw [if_neg hc4] at hok
                    by_cases hc5 : n1 >>> (8 * 3) = 0xD3
                    · rw [if_pos hc5] at hok
                      obtain rfl : line = .ifNotEq16 (n1 &&& 0xFFFFFF) v :=
                        (Except.ok.inj hok).symm
                      show 'D' :: '3' :: (hexUpperPad 6 (n1 &&& 0xFFFFFF) ++ ' ' ::
                        hexUpperPad 4 v) = t1 ++ ' ' :: t2
                      rw [← hpad1, ← hpad2]
                      exact render_assemble 'D' '3' n1 v (by rw [hc5]; decide) hb2
                    · rw [if_neg hc5] at hok
                      exact Except.noConfusion hok
        · rw [if_neg hl2] at hok
          exact Except.noConfusion hok
      · rw [if_neg hl1] at hok
        exact Except.noConfusion hok

/-- Witness for C3 as amended: the canonical check line `D033AFA1 0020`. -/
theorem c3_roundtrip_canonical_witness :
    CodeLine.renderChars (.ifEq8 0x33AFA1 0x20) =
      ['D', '0', '3', '3', 'A', 'F', 'A', '1'] ++ ' ' :: ['0', '0', '2', '0'] :=
  c3_roundtrip_canonical ['D', '0', '3', '3', 'A', 'F', 'A', '1'] ['0', '0', '2', '0']
    (.ifEq8 0x33AFA1 0x20) (by decide) (by decide) rfl (Or.inr (by decide))

end Sm64gs2pc
